import Mathlib

/- A shallow embedding of the Emacs sampling profiler (src/profiler.c):
   backtrace canonicalization, the fixed-capacity slot pool with its free
   list, the bucket-chained hash table, min-count eviction into the
   overflow counter, the signal-handler aggregation step, and the control
   API.  Pointers into the slot heap are modelled as heap indices
   (`Option Nat`, `none` = NULL); the heap itself is a function
   `Nat → ProfSlot` together with the recorded size
   `prof_slot_heap_size`. -/

/-- Model of a Lisp_Object as far as the profiler observes one: the nil
sentinel, the symbol t (used by the snapshot as the overflow marker), and
function symbols identified by a number.  EQ is decidable equality. -/
inductive LObj where
  | nil
  | t
  | sym (n : Nat)
deriving DecidableEq, Repr

/-- Model of XUINT on the tagged word of a Lisp_Object.  It is only used
as hash input, so the exact values are irrelevant as long as they are
fixed. -/
def xuint : LObj → Nat
  | .nil => 0
  | .t => 1
  | .sym n => n + 2

/-- Modelled from the spec: the host macro SXHASH_COMBINE (declared in
lisp.h, which is not under src/), an order-sensitive combination of hash
words on a 64-bit EMACS_UINT: ((x << 4) + (x >> (64 - 4)) + acc) with
wraparound. -/
def SXHASH_COMBINE (x acc : Nat) : Nat := (x * 16 + x / 2 ^ 60 + acc) % 2 ^ 64

def PROF_HASH_TABLE_SIZE : Nat := 128

/-- Reading frame i of a backtrace buffer; buffers always hold depth
entries, reads beyond the list are modelled as nil. -/
def btGet (bt : List LObj) (i : Nat) : LObj := bt.getD i LObj.nil

/-- prof_backtrace_hash: fold SXHASH_COMBINE over all depth frame words,
sentinel entries included. -/
def prof_backtrace_hash (depth : Nat) (bt : List LObj) : Nat :=
  (List.range depth).foldl (fun h i => SXHASH_COMBINE (xuint (btGet bt i)) h) 0

/-- prof_backtrace_index: bucket of a backtrace. -/
def prof_backtrace_index (depth : Nat) (bt : List LObj) : Nat :=
  prof_backtrace_hash depth bt % PROF_HASH_TABLE_SIZE

/-- prof_backtrace_equal: element-wise EQ over all depth positions. -/
def prof_backtrace_equal (depth : Nat) (a b : List LObj) : Bool :=
  (List.range depth).all (fun i => btGet a i == btGet b i)

/-- Structural form of the prof_backtrace_list recursion: the first
argument is depth - n, so it is 0 exactly when n has reached depth. -/
def prof_backtrace_list_rec (bt : List LObj) : Nat → Nat → List LObj
  | 0, _ => []
  | fuel + 1, n =>
      match btGet bt n with
      | LObj.nil => []
      | x => x :: prof_backtrace_list_rec bt fuel (n + 1)

/-- prof_backtrace_list: the non-sentinel head of a backtrace as a Lisp
list, in top-to-bottom order.  The C recursion stops at
n == prof_max_stack_depth or at the first nil; the remaining step count
depth - n drives the structural recursion. -/
def prof_backtrace_list (depth : Nat) (bt : List LObj) (n : Nat) : List LObj :=
  prof_backtrace_list_rec bt (depth - n) n

/-- The loop in prof_make_slot copying depth frames into the slot's own
buffer. -/
def copy_backtrace (depth : Nat) (bt : List LObj) : List LObj :=
  (List.range depth).map (fun i => btGet bt i)

/-- struct prof_slot: chain links, the owned backtrace buffer, the sample
counter and the used bit. -/
structure ProfSlot where
  next : Option Nat
  prev : Option Nat
  backtrace : List LObj
  count : Nat
  used : Bool
deriving DecidableEq, Repr

/-- The profiler's aggregation state while the slot heap is allocated:
prof_max_stack_depth, prof_slot_heap_size, prof_slot_heap,
prof_hash_table, prof_free_list, prof_total_count, prof_others_count. -/
structure ProfState where
  depth : Nat
  heap_size : Nat
  slots : Nat → ProfSlot
  table : Nat → Option Nat
  free_list : Option Nat
  total : Nat
  others : Nat

/-- Writing one field group of one slot of the heap. -/
def updSlot (s : ProfState) (i : Nat) (g : ProfSlot → ProfSlot) : ProfState :=
  { s with slots := fun j => if j = i then g (s.slots j) else s.slots j }

/-- Writing one bucket head of the hash table. -/
def updTable (s : ProfState) (b : Nat) (v : Option Nat) : ProfState :=
  { s with table := fun c => if c = b then v else s.table c }

/-- One slot of the freshly initialized heap: used = 0, the free list
threaded through next in index order.  The C leaves count, prev and the
backtrace buffer contents uninitialized and never reads them before
writing them; they are modelled as 0 / none / nil padding. -/
def initSlot (cfg_size cfg_depth i : Nat) : ProfSlot :=
  { next := if i + 1 < cfg_size then some (i + 1) else none
    prev := none
    backtrace := List.replicate cfg_depth LObj.nil
    count := 0
    used := false }

/-- prof_init with the configuration variables profiler_max_stack_depth
and profiler_slot_heap_size passed explicitly.  For cfg_size = 0 the C
writes through the result of xmalloc(0); the model takes the free list to
be empty in that case. -/
def prof_init (cfg_depth cfg_size : Nat) : ProfState :=
  { depth := cfg_depth
    heap_size := cfg_size
    slots := initSlot cfg_size cfg_depth
    table := fun _ => none
    free_list := if cfg_size = 0 then none else some 0
    total := 0
    others := 0 }

/-- prof_unlink_slot: splice a slot out of its doubly linked bucket chain,
using its own prev/next fields; a slot with no predecessor is replaced as
the head of the bucket its backtrace hashes to. -/
def prof_unlink_slot (s : ProfState) (i : Nat) : ProfState :=
  let s1 := match (s.slots i).prev with
    | some p => updSlot s p (fun q => { q with next := (s.slots i).next })
    | none =>
        updTable s (prof_backtrace_index s.depth (s.slots i).backtrace)
          ((s.slots i).next)
  match (s.slots i).next with
  | some n2 => updSlot s1 n2 (fun q => { q with prev := (s.slots i).prev })
  | none => s1

/-- prof_free_slot: eassert (slot->used), unlink, clear the used bit and
push the slot onto the free list. -/
def prof_free_slot (s : ProfState) (i : Nat) : ProfState :=
  let s1 := prof_unlink_slot s i
  let s2 := updSlot s1 i (fun q => { q with used := false, next := s1.free_list })
  { s2 with free_list := some i }

/-- prof_evict_slot: fold the victim's count into prof_others_count, then
free it. -/
def prof_evict_slot (s : ProfState) (i : Nat) : ProfState :=
  prof_free_slot { s with others := s.others + (s.slots i).count } i

/-- The state of prof_evict_min_slot's scan after examining the first k
slots: the provisional minimum pointer (none = no candidate yet).  Note
the C condition (! min || (s->used && s->count < min->count)) seeds the
scan with slot 0 whether or not it is used. -/
def prof_evict_scan (s : ProfState) (k : Nat) : Option Nat :=
  (List.range k).foldl
    (fun mn i =>
      match mn with
      | none => some i
      | some m =>
          if (s.slots i).used = true ∧ (s.slots i).count < (s.slots m).count
          then some i else mn)
    none

/-- The victim prof_evict_min_slot selects: the scan run over the whole
heap. -/
def prof_evict_min_idx (s : ProfState) : Option Nat :=
  prof_evict_scan s s.heap_size

/-- prof_evict_min_slot.  On an empty heap the scan yields no victim and
the C dereferences a null pointer; the model leaves the state unchanged on
that (unreachable) path. -/
def prof_evict_min_slot (s : ProfState) : ProfState :=
  match prof_evict_min_idx s with
  | some i => prof_evict_slot s i
  | none => s

/-- prof_allocate_slot: evict if the free list is empty, then pop the
head of the free list and mark it used.  eassert (prof_free_list) after
eviction: if the free list is still empty the C build either aborts or
dereferences NULL; the model returns no slot on that path. -/
def prof_allocate_slot (s : ProfState) : ProfState × Option Nat :=
  let s1 := match s.free_list with
    | none => prof_evict_min_slot s
    | some _ => s
  match s1.free_list with
  | some i =>
      let s2 := updSlot s1 i (fun q => { q with used := true })
      ({ s2 with free_list := (s2.slots i).next }, some i)
  | none => (s1, none)

/-- prof_make_slot: allocate, copy the backtrace into the slot's buffer,
clear the links and the counter. -/
def prof_make_slot (s : ProfState) (bt : List LObj) : ProfState × Option Nat :=
  match prof_allocate_slot s with
  | (s1, some i) =>
      (updSlot s1 i (fun q =>
        { q with backtrace := copy_backtrace s1.depth bt
                 prev := none
                 next := none
                 count := 0 }), some i)
  | r => r

/-- The chain scan of prof_ensure_slot: walk next pointers from a bucket
head looking for an EQ backtrace, tracking the last node visited (the C
variable prev, initialized to the head).  The fuel argument bounds the
walk; it is called with heap_size + 1, enough for every chain the code
can build, matching the C loop which walks until a NULL next. -/
def prof_chain_find (s : ProfState) (bt : List LObj) :
    Nat → Option Nat → Option Nat → Option Nat × Option Nat
  | 0, _, pv => (none, pv)
  | _ + 1, none, pv => (none, pv)
  | fuel + 1, some i, pv =>
      if prof_backtrace_equal s.depth bt (s.slots i).backtrace
      then (some i, pv)
      else prof_chain_find s bt fuel (s.slots i).next (some i)

/-- prof_ensure_slot: look the backtrace up in its bucket chain; when the
scan misses, make a new slot and link it after the last chain node (or as
the bucket head when the chain was empty). -/
def prof_ensure_slot (s : ProfState) (bt : List LObj) : ProfState × Option Nat :=
  match prof_chain_find s bt (s.heap_size + 1)
      (s.table (prof_backtrace_index s.depth bt))
      (s.table (prof_backtrace_index s.depth bt)) with
  | (some i, _) => (s, some i)
  | (none, prevF) =>
      match prof_make_slot s bt, prevF with
      | (s1, some i), some p =>
          (updSlot (updSlot s1 i (fun q => { q with prev := some p })) p
            (fun q => { q with next := some i }), some i)
      | (s1, some i), none =>
          (updTable s1 (prof_backtrace_index s.depth bt) (some i), some i)
      | (s1, none), _ => (s1, none)

/-- The aggregation step of prof_signal_handler, taking the already
filled prof_backtrace buffer (depth frames, nil holes where the walked
frame was not a named function): discard the sample when frame 0 is nil,
otherwise ensure a slot and bump its counter and the total.  When
allocation yields no slot (empty heap) the C crashes; the model leaves
the counters untouched on that path. -/
def prof_handle_sample (s : ProfState) (bt : List LObj) : ProfState :=
  if btGet bt 0 = LObj.nil then s
  else
    match prof_ensure_slot s bt with
    | (s1, some i) =>
        { updSlot s1 i (fun q => { q with count := q.count + 1 }) with
          total := s1.total + 1 }
    | (s1, none) => s1

/-- Folding a list of samples through the handler. -/
def sampleList (s : ProfState) (l : List (List LObj)) : ProfState :=
  l.foldl prof_handle_sample s

/-- Walk a next-linked list of slots from a head pointer, fuel-bounded. -/
def walkNext (s : ProfState) : Nat → Option Nat → List Nat
  | 0, _ => []
  | _ + 1, none => []
  | fuel + 1, some i => i :: walkNext s fuel (s.slots i).next

/-- The nodes of the free list (fuel heap_size + 1). -/
def freeNodes (s : ProfState) : List Nat := walkNext s (s.heap_size + 1) s.free_list

/-- The nodes of bucket b's chain (fuel heap_size + 1). -/
def chainNodes (s : ProfState) (b : Nat) : List Nat :=
  walkNext s (s.heap_size + 1) (s.table b)

/-- A slot index is reachable from some hash bucket head. -/
def inSomeChain (s : ProfState) (i : Nat) : Bool :=
  (List.range PROF_HASH_TABLE_SIZE).any (fun b => (chainNodes s b).contains i)

/-- In how many bucket chains a slot index occurs. -/
def chainCount (s : ProfState) (i : Nat) : Nat :=
  ((List.range PROF_HASH_TABLE_SIZE).filter (fun b => (chainNodes s b).contains i)).length

/-- The pool partition of the spec: every slot of the heap is either used
and in exactly one bucket chain and not on the free list, or unused and on
the free list and in no chain. -/
def poolPartition (s : ProfState) : Bool :=
  (List.range s.heap_size).all (fun i =>
    if (s.slots i).used = true
    then (chainCount s i == 1) && !((freeNodes s).contains i)
    else (freeNodes s).contains i && !(inSomeChain s i))

/-- The contribution of one slot to the used-slot count sum. -/
def contrib (s : ProfState) (j : Nat) : Nat :=
  if (s.slots j).used = true then (s.slots j).count else 0

/-- The sum of the counts of the used slots of the heap. -/
def usedMass (s : ProfState) : Nat :=
  Finset.sum (Finset.range s.heap_size) (contrib s)

/-- The accounting invariant: total samples = used-slot counts + others. -/
def massInv (s : ProfState) : Prop := s.total = usedMass s + s.others

/-- Structural facts used when reasoning about one handler step: unused
slots are on the free list, free-list nodes are in bounds and unused, and
chain-reachable nodes are in bounds and used. -/
def structOK (s : ProfState) : Prop :=
  (∀ i, i < s.heap_size → (s.slots i).used = false → i ∈ freeNodes s)
  ∧ (∀ i, i ∈ freeNodes s → i < s.heap_size ∧ (s.slots i).used = false)
  ∧ (∀ b, b < PROF_HASH_TABLE_SIZE → ∀ i, i ∈ chainNodes s b →
      i < s.heap_size ∧ (s.slots i).used = true)

/-- One snapshot entry: list2 (prof_backtrace_list ...) (count). -/
structure SnapEntry where
  frames : List LObj
  count : Nat
deriving DecidableEq, Repr

/-- The entry Fprofiler_take_snapshot builds for a used slot. -/
def snapEntryOf (s : ProfState) (i : Nat) : SnapEntry :=
  { frames := prof_backtrace_list s.depth (s.slots i).backtrace 0
    count := (s.slots i).count }

/-- The slots list Fprofiler_take_snapshot builds: it starts from the
singleton list holding the synthetic overflow entry
(frames = [t], count = prof_others_count) and conses each used slot's
entry onto the front while scanning the heap in index order. -/
def prof_snapshot_slots (s : ProfState) : List SnapEntry :=
  (List.range s.heap_size).foldl
    (fun acc i => if (s.slots i).used = true then snapEntryOf s i :: acc else acc)
    [{ frames := [LObj.t], count := s.others }]

/-- The used-slot part of the snapshot list in the order the fold leaves
it: used indices in descending index order. -/
def snapshot_used_entries (s : ProfState) : List SnapEntry :=
  (((List.range s.heap_size).filter (fun i => (s.slots i).used)).reverse).map
    (snapEntryOf s)

/-- Values of prof_mode: Qnil initially, the symbol sample afterwards. -/
inductive PMode where
  | pnil
  | psample
deriving DecidableEq, Repr

/-- The structured report of Fprofiler_take_snapshot. -/
structure Snapshot where
  mode : PMode
  start_time : Nat
  stop_time : Nat
  slots : List SnapEntry
  sample_interval : Int
  sample_count : Nat
deriving DecidableEq, Repr

/-- The whole profiler: the mode/time/interval globals, the lazily
allocated pool (none models prof_slot_heap == NULL), the recorded
prof_slot_heap_size global, which survives the pool's deallocation, and
whether the SIGPROF interval timer is armed. -/
structure Profiler where
  mode : PMode
  start_time : Nat
  sample_interval : Int
  pool : Option ProfState
  slot_heap_size : Nat
  timer_armed : Bool

/-- The profiler's global state after syms_of_profiler, before any call:
mode nil, no pool, recorded heap size 0, timer disarmed. -/
def profiler_initial : Profiler :=
  { mode := PMode.pnil
    start_time := 0
    sample_interval := 0
    pool := none
    slot_heap_size := 0
    timer_armed := false }

/-- Fprofiler_start_sampling: lazily allocate the pool, set mode, start
time and interval, install the signal action and the interval timer, and
return Qt.  The C ignores the return values of sigaction and setitimer;
install_ok models the host's success installing the timer, so the timer
ends up armed only when the host succeeded, but the returned value is Qt
(true) either way. -/
def Fprofiler_start_sampling (cfg_depth cfg_size : Nat) (now : Nat)
    (install_ok : Bool) (p : Profiler) (interval : Int) : Profiler × Bool :=
  let p1 := match p.pool with
    | none => { p with pool := some (prof_init cfg_depth cfg_size)
                       slot_heap_size := cfg_size }
    | some _ => p
  let p2 := { p1 with mode := PMode.psample
                      start_time := now
                      sample_interval := interval }
  let p3 := { p2 with timer_armed := if install_ok then true else p2.timer_armed }
  (p3, true)

/-- Fprofiler_stop_sampling: disarm the interval timer; nothing else. -/
def Fprofiler_stop_sampling (p : Profiler) : Profiler :=
  { p with timer_armed := false }

/-- Fprofiler_reset: with the signal blocked, free the backtrace scratch
buffer, every slot's backtrace buffer and the slot heap, and clear the
heap pointer.  prof_slot_heap_size, the timer and the mode are left as
they are.  The freed heap's memory is no longer representable, which is
the point of claim C10: every later read of it is modelled as a partial
operation. -/
def Fprofiler_reset (p : Profiler) : Profiler :=
  match p.pool with
  | some _ => { p with pool := none }
  | none => p

/-- Fprofiler_take_snapshot: with the signal blocked, build the report.
The slots loop reads prof_slot_heap[i] for i < prof_slot_heap_size; when
the pool pointer is NULL but the recorded size is positive (the state
Fprofiler_reset leaves) that read has no value, so the model returns
none there.  Before the first allocation (size 0) the loop body never
runs and the counter globals are still 0. -/
def Fprofiler_take_snapshot (now : Nat) (p : Profiler) : Option Snapshot :=
  match p.pool with
  | some st =>
      some { mode := p.mode
             start_time := p.start_time
             stop_time := now
             slots := prof_snapshot_slots st
             sample_interval := p.sample_interval
             sample_count := st.total }
  | none =>
      if p.slot_heap_size = 0 then
        some { mode := p.mode
               start_time := p.start_time
               stop_time := now
               slots := [{ frames := [LObj.t], count := 0 }]
               sample_interval := p.sample_interval
               sample_count := 0 }
      else none

/-- One timer tick: prof_signal_handler running against the globals.
With no pool the handler writes through freed or null pointers, so the
model returns none there. -/
def prof_on_trigger (bt : List LObj) (p : Profiler) : Option Profiler :=
  match p.pool with
  | some st => some { p with pool := some (prof_handle_sample st bt) }
  | none => none

/-- The state after sampling a list of backtraces into a fresh pool. -/
def fillState (d N : Nat) (bts : List (List LObj)) : ProfState :=
  sampleList (prof_init d N) bts

/-- Concrete run for claim C5: capacity 1, depth 1; the keys sym 6 and
sym 14 share bucket 0. -/
def c5_state1 : ProfState := prof_handle_sample (prof_init 1 1) [LObj.sym 6]

/-- Second step of the C5 run: sampling sym 14 evicts the chain tail that
prof_ensure_slot captured as the insertion predecessor. -/
def c5_state2 : ProfState := prof_handle_sample c5_state1 [LObj.sym 14]

/-- Concrete run for claim C8: capacity 2, depth 1; sym 6, sym 14,
sym 22, sym 30 all hash to bucket 0.  After these four samples the slot
holding sym 30 is used but detached from every chain. -/
def c8_state4 : ProfState :=
  sampleList (prof_init 1 2) [[LObj.sym 6], [LObj.sym 14], [LObj.sym 22], [LObj.sym 30]]

/-- Fifth step of the C8 run: sampling sym 30 again misses the detached
slot holding it. -/
def c8_state5 : ProfState := prof_handle_sample c8_state4 [LObj.sym 30]

/-- Concrete state for the C2 counterexample: one used slot. -/
def c2_state : ProfState := prof_handle_sample (prof_init 1 1) [LObj.sym 6]

/-- A profiler with a freshly allocated one-slot pool. -/
def exProf : Profiler := (Fprofiler_start_sampling 1 1 0 true profiler_initial 1).1

/-- The bucket chain the first k sampled backtraces of bts should form in
bucket b: slot j was allocated for sample j, and tail insertion keeps each
chain in increasing slot-index order. -/
def chainOf (d : Nat) (bts : List (List LObj)) (b k : Nat) : List Nat :=
  (List.range k).filter (fun j => prof_backtrace_index d (bts.getD j []) == b)

/-- A doubly linked bucket chain: h points at the listed slots in order,
each slot's prev points at its predecessor (pv before the first), and the
last slot's next is null. -/
def Linked (s : ProfState) : Option Nat → Option Nat → List Nat → Prop
  | h, _, [] => h = none
  | h, pv, j :: rest =>
      h = some j ∧ (s.slots j).prev = pv ∧ Linked s (s.slots j).next (some j) rest

/-- The last element of a list as an option, defaulting to pv: the value
prof_ensure_slot's prev variable holds after a missed chain scan. -/
def lastOr : List Nat → Option Nat → Option Nat
  | [], pv => pv
  | j :: rest, _ => lastOr rest (some j)

/-- The state of the pool after the first k samples of the C6 run: slots
0..k-1 hold the k distinct backtraces with count 1, the free list is the
untouched tail of the heap, nothing has been evicted, and each hash bucket
chains exactly its own sampled indices in order. -/
def fillInv (d N : Nat) (bts : List (List LObj)) (k : Nat) (s : ProfState) : Prop :=
  s.depth = d
  ∧ s.heap_size = N
  ∧ s.others = 0
  ∧ s.total = k
  ∧ s.free_list = (if k < N then some k else none)
  ∧ (∀ j, k ≤ j → s.slots j = initSlot N d j)
  ∧ (∀ j, j < k → (s.slots j).used = true ∧ (s.slots j).count = 1
      ∧ (s.slots j).backtrace = copy_backtrace d (bts.getD j []))
  ∧ (∀ b, Linked s (s.table b) none (chainOf d bts b k))

/-- Concrete state for the C1 and C4 witnesses: a full one-slot pool. -/
def c1_state : ProfState := prof_handle_sample (prof_init 1 1) [LObj.sym 3]

theorem list_foldl_filter_cons (g : Nat → SnapEntry) (p : Nat → Bool) :
    ∀ (L : List Nat) (init : List SnapEntry),
      L.foldl (fun acc i => if p i = true then g i :: acc else acc) init
        = ((L.filter p).reverse.map g) ++ init := by
  intro L
  induction L with
  | nil => intro init; simp
  | cons x xs ih =>
      intro init
      simp only [List.foldl_cons, List.filter_cons]
      by_cases hx : p x = true
      · rw [if_pos hx, if_pos hx, ih]
        simp [List.append_assoc]
      · rw [if_neg hx, if_neg hx, ih]

theorem snapshot_slots_shape (s : ProfState) :
    prof_snapshot_slots s
      = snapshot_used_entries s ++ [{ frames := [LObj.t], count := s.others }] :=
  list_foldl_filter_cons (snapEntryOf s) (fun i => (s.slots i).used)
    (List.range s.heap_size) _

/-- C2, counterexample: in a state with one used slot, the first element
of the snapshot's entries sequence is that slot's entry, not the
synthetic overflow entry — the code conses used-slot entries in front of
the overflow entry, so the overflow entry ends up last. -/
theorem C2_overflow_not_first :
    (prof_snapshot_slots c2_state).head?
      ≠ some { frames := [LObj.t], count := c2_state.others } := by decide

/-- C2 (amended): the report's entries sequence is the per-used-slot
entries (frames = the non-sentinel head of the slot's backtrace in
original order, count = the slot's counter; slots in descending heap
index order) followed by exactly one synthetic overflow entry as the
LAST element, frames = [t] and count = others_count, present even when
others_count is zero. -/
theorem C2_snapshot_overflow_last (s : ProfState) (p : Profiler)
    (st : ProfState) (now2 : Nat) (hpool : p.pool = some st) :
    prof_snapshot_slots s
        = snapshot_used_entries s ++ [{ frames := [LObj.t], count := s.others }]
    ∧ ∃ snap, Fprofiler_take_snapshot now2 p = some snap
        ∧ snap.slots
            = snapshot_used_entries st ++ [{ frames := [LObj.t], count := st.others }]
        ∧ snap.sample_count = st.total := by
  refine ⟨snapshot_slots_shape s, ?_⟩
  refine ⟨{ mode := p.mode, start_time := p.start_time, stop_time := now2,
            slots := prof_snapshot_slots st,
            sample_interval := p.sample_interval, sample_count := st.total },
          ?_, snapshot_slots_shape st, rfl⟩
  simp [Fprofiler_take_snapshot, hpool]

/-- Witness for C2_snapshot_overflow_last at a concrete profiler. -/
theorem C2_snapshot_overflow_last_witness :
    exProf.pool = some (prof_init 1 1)
    ∧ prof_snapshot_slots (prof_init 1 1)
        = snapshot_used_entries (prof_init 1 1)
            ++ [{ frames := [LObj.t], count := (prof_init 1 1).others }] :=
  ⟨rfl, (C2_snapshot_overflow_last (prof_init 1 1) exProf (prof_init 1 1) 5 rfl).1⟩

/-- C3, counterexample: starting from the initial profiler with trigger
installation failing (install_ok = false), Fprofiler_start_sampling still
returns success (Qt), with the mode already switched to sample while the
timer is not armed — the C never checks the sigaction/setitimer return
values. -/
theorem C3_failure_not_surfaced :
    (Fprofiler_start_sampling 16 10000 0 false profiler_initial 1).2 = true
    ∧ (Fprofiler_start_sampling 16 10000 0 false profiler_initial 1).1.timer_armed
        = false
    ∧ (Fprofiler_start_sampling 16 10000 0 false profiler_initial 1).1.mode
        = PMode.psample :=
  ⟨rfl, rfl, rfl⟩

/-- C3 (amended): Fprofiler_start_sampling always returns success (Qt);
an installation failure is neither detected nor surfaced, and the mode,
start time and interval are set unconditionally before installation, so
on failure the profiler is left in sampling mode with the timer
unchanged. -/
theorem C3_start_always_succeeds (cfg_depth cfg_size now2 : Nat)
    (install_ok : Bool) (p : Profiler) (interval : Int) :
    (Fprofiler_start_sampling cfg_depth cfg_size now2 install_ok p interval).2 = true
    ∧ (Fprofiler_start_sampling cfg_depth cfg_size now2 install_ok p interval).1.mode
        = PMode.psample
    ∧ (Fprofiler_start_sampling cfg_depth cfg_size now2 install_ok p
        interval).1.sample_interval = interval
    ∧ (install_ok = false →
        (Fprofiler_start_sampling cfg_depth cfg_size now2 install_ok p
          interval).1.timer_armed = p.timer_armed) := by
  refine ⟨rfl, ?_, ?_, ?_⟩ <;>
    cases hp : p.pool <;>
      simp [Fprofiler_start_sampling, hp]
  · intro h; rw [h]; simp
  · intro h; rw [h]; simp

/-- Witness for C3_start_always_succeeds, discharging the implication at
install_ok = false. -/
theorem C3_start_always_succeeds_witness :
    (Fprofiler_start_sampling 16 10000 0 false profiler_initial 1).2 = true
    ∧ (Fprofiler_start_sampling 16 10000 0 false profiler_initial
        1).1.timer_armed = profiler_initial.timer_armed :=
  ⟨(C3_start_always_succeeds 16 10000 0 false profiler_initial 1).1,
   (C3_start_always_succeeds 16 10000 0 false profiler_initial 1).2.2.2 rfl⟩

/-- C5, the code evaluated at the failing input: with capacity 1, after
sampling sym 6 the pool partition holds; sampling sym 14 (same bucket)
makes prof_ensure_slot's captured insertion predecessor the eviction
victim, and the new slot comes back self-linked: it is marked used yet
reachable from no hash bucket, so the used/free partition of the pool is
violated. -/
theorem C5_partition_violated :
    poolPartition c5_state1 = true
    ∧ (c5_state2.slots 0).used = true
    ∧ (c5_state2.slots 0).next = some 0
    ∧ (c5_state2.slots 0).prev = some 0
    ∧ inSomeChain c5_state2 0 = false
    ∧ c5_state2.free_list = none
    ∧ poolPartition c5_state2 = false := by decide

/-- C7: a sample whose first frame token is the nil sentinel leaves the
whole aggregation state unchanged: no slot lookup or creation, no count
change, no total increment. -/
theorem C7_sentinel_sample_discarded (s : ProfState) (bt : List LObj)
    (h : btGet bt 0 = LObj.nil) : prof_handle_sample s bt = s := by
  unfold prof_handle_sample
  rw [if_pos h]

/-- Witness for C7_sentinel_sample_discarded at a concrete state and
sample. -/
theorem C7_sentinel_sample_discarded_witness :
    btGet [LObj.nil] 0 = LObj.nil
    ∧ prof_handle_sample (prof_init 1 1) [LObj.nil] = prof_init 1 1 :=
  ⟨rfl, C7_sentinel_sample_discarded (prof_init 1 1) [LObj.nil] rfl⟩

/-- C8, the code evaluated at the failing input: with capacity 2, after
sampling sym 6, sym 14, sym 22, sym 30 (one bucket), the slot holding
sym 30 is used with count 1 but detached from every chain; sampling the
identical backtrace sym 30 again does not increment that slot — the
chain scan misses it, the detached slot is evicted (its count leaks into
others_count) and a fresh slot for the same key is created with count 1,
so after two samples of sym 30 its visible count is still 1. -/
theorem C8_identical_key_not_incremented :
    (c8_state4.slots 0).used = true
    ∧ (c8_state4.slots 0).backtrace = [LObj.sym 30]
    ∧ (c8_state4.slots 0).count = 1
    ∧ inSomeChain c8_state4 0 = false
    ∧ c8_state4.others = 2
    ∧ c8_state4.total = 4
    ∧ (c8_state5.slots 0).backtrace = [LObj.sym 30]
    ∧ (c8_state5.slots 0).count = 1
    ∧ c8_state5.others = 3
    ∧ c8_state5.total = 5 := by decide

/-- C9: Fprofiler_stop_sampling disarms the timer and changes nothing
else; in particular a snapshot taken after stopping is identical to one
taken immediately before. -/
theorem C9_stop_disarms_only (p : Profiler) :
    (Fprofiler_stop_sampling p).timer_armed = false
    ∧ (Fprofiler_stop_sampling p).mode = p.mode
    ∧ (Fprofiler_stop_sampling p).start_time = p.start_time
    ∧ (Fprofiler_stop_sampling p).sample_interval = p.sample_interval
    ∧ (Fprofiler_stop_sampling p).pool = p.pool
    ∧ (Fprofiler_stop_sampling p).slot_heap_size = p.slot_heap_size
    ∧ ∀ now2, Fprofiler_take_snapshot now2 (Fprofiler_stop_sampling p)
        = Fprofiler_take_snapshot now2 p :=
  ⟨rfl, rfl, rfl, rfl, rfl, rfl, fun _ => rfl⟩

/-- C10: Fprofiler_reset drops the pool but neither clears
prof_slot_heap_size nor disarms the timer, so the state it leaves has a
positive recorded size and no heap; Fprofiler_take_snapshot's slot loop
and the trigger handler have no value there (the C reads freed memory),
while on any state whose pool is allocated the snapshot is total. -/
theorem C10_reset_leaves_dangling_size (p : Profiler) (st : ProfState)
    (now2 : Nat) (bt : List LObj)
    (hpool : p.pool = some st) (hsz : 0 < p.slot_heap_size) :
    (Fprofiler_reset p).pool = none
    ∧ (Fprofiler_reset p).slot_heap_size = p.slot_heap_size
    ∧ (Fprofiler_reset p).timer_armed = p.timer_armed
    ∧ (Fprofiler_reset p).mode = p.mode
    ∧ Fprofiler_take_snapshot now2 (Fprofiler_reset p) = none
    ∧ prof_on_trigger bt (Fprofiler_reset p) = none
    ∧ (Fprofiler_take_snapshot now2 p).isSome = true := by
  have hnz : p.slot_heap_size ≠ 0 := Nat.pos_iff_ne_zero.mp hsz
  simp [Fprofiler_reset, hpool, Fprofiler_take_snapshot, prof_on_trigger, hnz]

/-- Witness for C10_reset_leaves_dangling_size at a concrete profiler
with an allocated one-slot pool. -/
theorem C10_reset_leaves_dangling_size_witness :
    exProf.pool = some (prof_init 1 1)
    ∧ 0 < exProf.slot_heap_size
    ∧ Fprofiler_take_snapshot 7 (Fprofiler_reset exProf) = none :=
  ⟨rfl, by decide,
   (C10_reset_leaves_dangling_size exProf (prof_init 1 1) 7 [] rfl
     (by decide)).2.2.2.2.1⟩

theorem prof_evict_scan_succ_none (s : ProfState) (k : Nat)
    (h : prof_evict_scan s k = none) :
    prof_evict_scan s (k + 1) = some k := by
  unfold prof_evict_scan at h ⊢
  rw [List.range_succ, List.foldl_append, h]
  rfl

theorem prof_evict_scan_succ_some (s : ProfState) (k m : Nat)
    (h : prof_evict_scan s k = some m) :
    prof_evict_scan s (k + 1)
      = if (s.slots k).used = true ∧ (s.slots k).count < (s.slots m).count
        then some k else some m := by
  unfold prof_evict_scan at h ⊢
  rw [List.range_succ, List.foldl_append, h]
  rfl

theorem prof_evict_scan_lt (s : ProfState) :
    ∀ k m, prof_evict_scan s k = some m → m < k := by
  intro k
  induction k with
  | zero => intro m hm; simp [prof_evict_scan] at hm
  | succ k ih =>
      intro m hm
      cases hsk : prof_evict_scan s k with
      | none =>
          rw [prof_evict_scan_succ_none s k hsk] at hm
          simp at hm
          omega
      | some m0 =>
          rw [prof_evict_scan_succ_some s k m0 hsk] at hm
          have h0 := ih m0 hsk
          by_cases hc : (s.slots k).used = true ∧ (s.slots k).count < (s.slots m0).count
          · rw [if_pos hc] at hm
            simp at hm
            omega
          · rw [if_neg hc] at hm
            simp at hm
            omega

theorem prof_evict_scan_isSome (s : ProfState) :
    ∀ k, 0 < k → ∃ m, prof_evict_scan s k = some m := by
  intro k
  induction k with
  | zero => intro h; omega
  | succ k ih =>
      intro _
      rcases Nat.eq_zero_or_pos k with hk | hk
      · subst hk
        exact ⟨0, rfl⟩
      · obtain ⟨m, hm⟩ := ih hk
        rw [prof_evict_scan_succ_some s k m hm]
        by_cases hc : (s.slots k).used = true ∧ (s.slots k).count < (s.slots m).count
        · exact ⟨k, by rw [if_pos hc]⟩
        · exact ⟨m, by rw [if_neg hc]⟩

theorem prof_evict_scan_const (s : ProfState)
    (hmin : ∀ i, i < s.heap_size → ¬((s.slots i).count < (s.slots 0).count)) :
    ∀ k, 0 < k → k ≤ s.heap_size → prof_evict_scan s k = some 0 := by
  intro k
  induction k with
  | zero => intro h; omega
  | succ k ih =>
      intro _ hle
      rcases Nat.eq_zero_or_pos k with hk | hk
      · subst hk
        rfl
      · rw [prof_evict_scan_succ_some s k 0 (ih hk (by omega))]
        have hc : ¬((s.slots k).used = true ∧ (s.slots k).count < (s.slots 0).count) := by
          intro hco
          exact hmin k (by omega) hco.2
        rw [if_neg hc]

/-- C1: whenever eviction runs — the free list is empty, so by the
used/free agreement every slot of a nonempty heap is used — every
provisional minimum the scan holds after any number of iterations is a
used slot, and the victim finally selected is a used slot, so the
eassert (slot->used) on prof_free_slot's path holds on every eviction. -/
theorem C1_eviction_victim_used (s : ProfState)
    (hfree : s.free_list = none)
    (hagree : ∀ i, i < s.heap_size → (s.slots i).used = false → i ∈ freeNodes s)
    (hsz : 0 < s.heap_size) :
    (∀ k m, k ≤ s.heap_size → prof_evict_scan s k = some m →
        (s.slots m).used = true)
    ∧ (∃ v, prof_evict_min_idx s = some v ∧ (s.slots v).used = true) := by
  have hempty : freeNodes s = [] := by
    simp [freeNodes, hfree, walkNext]
  have hall : ∀ i, i < s.heap_size → (s.slots i).used = true := by
    intro i hi
    cases hu : (s.slots i).used with
    | false =>
        have hmem := hagree i hi hu
        rw [hempty] at hmem
        simp at hmem
    | true => rfl
  constructor
  · intro k m hk hm
    exact hall m (lt_of_lt_of_le (prof_evict_scan_lt s k m hm) hk)
  · obtain ⟨m, hm⟩ := prof_evict_scan_isSome s s.heap_size hsz
    exact ⟨m, hm, hall m (prof_evict_scan_lt s _ m hm)⟩

/-- Witness for C1_eviction_victim_used at a concrete full pool. -/
theorem C1_eviction_victim_used_witness :
    c1_state.free_list = none
    ∧ (∀ i, i < c1_state.heap_size → (c1_state.slots i).used = false →
        i ∈ freeNodes c1_state)
    ∧ 0 < c1_state.heap_size
    ∧ ∃ v, prof_evict_min_idx c1_state = some v
        ∧ (c1_state.slots v).used = true :=
  ⟨by decide, by decide, by decide,
   (C1_eviction_victim_used c1_state (by decide) (by decide) (by decide)).2⟩

theorem updSlot_total (s : ProfState) (i : Nat) (g : ProfSlot → ProfSlot) :
    (updSlot s i g).total = s.total := rfl

theorem updSlot_others (s : ProfState) (i : Nat) (g : ProfSlot → ProfSlot) :
    (updSlot s i g).others = s.others := rfl

theorem updSlot_heap_size (s : ProfState) (i : Nat) (g : ProfSlot → ProfSlot) :
    (updSlot s i g).heap_size = s.heap_size := rfl

theorem updSlot_depth (s : ProfState) (i : Nat) (g : ProfSlot → ProfSlot) :
    (updSlot s i g).depth = s.depth := rfl

theorem updSlot_free_list (s : ProfState) (i : Nat) (g : ProfSlot → ProfSlot) :
    (updSlot s i g).free_list = s.free_list := rfl

theorem updSlot_table (s : ProfState) (i : Nat) (g : ProfSlot → ProfSlot) :
    (updSlot s i g).table = s.table := rfl

theorem updSlot_slots_same (s : ProfState) (i : Nat) (g : ProfSlot → ProfSlot) :
    (updSlot s i g).slots i = g (s.slots i) := by
  simp [updSlot]

theorem updSlot_slots_other (s : ProfState) (i : Nat) (g : ProfSlot → ProfSlot)
    (j : Nat) (h : j ≠ i) : (updSlot s i g).slots j = s.slots j := by
  simp [updSlot, h]

theorem updTable_slots (s : ProfState) (b : Nat) (v : Option Nat) :
    (updTable s b v).slots = s.slots := rfl

theorem updTable_total (s : ProfState) (b : Nat) (v : Option Nat) :
    (updTable s b v).total = s.total := rfl

theorem updTable_others (s : ProfState) (b : Nat) (v : Option Nat) :
    (updTable s b v).others = s.others := rfl

theorem updTable_heap_size (s : ProfState) (b : Nat) (v : Option Nat) :
    (updTable s b v).heap_size = s.heap_size := rfl

theorem updTable_depth (s : ProfState) (b : Nat) (v : Option Nat) :
    (updTable s b v).depth = s.depth := rfl

theorem updTable_free_list (s : ProfState) (b : Nat) (v : Option Nat) :
    (updTable s b v).free_list = s.free_list := rfl

theorem contrib_congr (s s2 : ProfState) (j : Nat)
    (hu : (s2.slots j).used = (s.slots j).used)
    (hc : (s2.slots j).count = (s.slots j).count) :
    contrib s2 j = contrib s j := by
  unfold contrib
  rw [hu, hc]

theorem usedMass_congr (s s2 : ProfState) (hn : s2.heap_size = s.heap_size)
    (h : ∀ i, i < s.heap_size → (s2.slots i).used = (s.slots i).used
        ∧ (s2.slots i).count = (s.slots i).count) :
    usedMass s2 = usedMass s := by
  unfold usedMass
  rw [hn]
  apply Finset.sum_congr rfl
  intro i hi
  have hi2 := Finset.mem_range.mp hi
  exact contrib_congr s s2 i (h i hi2).1 (h i hi2).2

theorem massInv_congr (s s2 : ProfState) (hn : s2.heap_size = s.heap_size)
    (h : ∀ i, i < s.heap_size → (s2.slots i).used = (s.slots i).used
        ∧ (s2.slots i).count = (s.slots i).count)
    (ht : s2.total = s.total) (ho : s2.others = s.others)
    (hm : massInv s) : massInv s2 := by
  unfold massInv at hm ⊢
  rw [ht, ho, usedMass_congr s s2 hn h]
  exact hm

theorem mass_step (s s2 : ProfState) (v : Nat) (hv : v < s.heap_size)
    (hsz : s2.heap_size = s.heap_size)
    (hoff : ∀ j, j < s.heap_size → j ≠ v → contrib s2 j = contrib s j)
    (hbal : s2.total + contrib s v + s.others = s.total + contrib s2 v + s2.others)
    (hm : massInv s) : massInv s2 := by
  have e1 : usedMass s
      = Finset.sum ((Finset.range s.heap_size).erase v) (contrib s) + contrib s v :=
    (Finset.sum_erase_add _ _ (Finset.mem_range.mpr hv)).symm
  have e2 : usedMass s2
      = Finset.sum ((Finset.range s.heap_size).erase v) (contrib s2) + contrib s2 v := by
    unfold usedMass
    rw [hsz]
    exact (Finset.sum_erase_add _ _ (Finset.mem_range.mpr hv)).symm
  have e3 : Finset.sum ((Finset.range s.heap_size).erase v) (contrib s2)
      = Finset.sum ((Finset.range s.heap_size).erase v) (contrib s) := by
    apply Finset.sum_congr rfl
    intro j hj
    obtain ⟨hne, hjr⟩ := Finset.mem_erase.mp hj
    exact hoff j (Finset.mem_range.mp hjr) hne
  unfold massInv at hm ⊢
  omega

theorem unlink_preserves (s : ProfState) (v : Nat) :
    (prof_unlink_slot s v).heap_size = s.heap_size
    ∧ (prof_unlink_slot s v).depth = s.depth
    ∧ (prof_unlink_slot s v).total = s.total
    ∧ (prof_unlink_slot s v).others = s.others
    ∧ (prof_unlink_slot s v).free_list = s.free_list
    ∧ ∀ j, ((prof_unlink_slot s v).slots j).used = (s.slots j).used
        ∧ ((prof_unlink_slot s v).slots j).count = (s.slots j).count
        ∧ ((prof_unlink_slot s v).slots j).backtrace = (s.slots j).backtrace := by
  unfold prof_unlink_slot
  cases hp : (s.slots v).prev <;> cases hn : (s.slots v).next <;>
    refine ⟨rfl, rfl, rfl, rfl, rfl, fun j => ⟨?_, ?_, ?_⟩⟩ <;>
      first
      | (simp only [updSlot, updTable]; split_ifs <;> rfl)
      | simp only [updSlot, updTable]

theorem updSlot_preserves_used (s : ProfState) (i : Nat) (g : ProfSlot → ProfSlot)
    (hg : ∀ q, (g q).used = q.used) (j : Nat) :
    ((updSlot s i g).slots j).used = (s.slots j).used := by
  simp only [updSlot]
  split_ifs
  · exact hg (s.slots j)
  · rfl

theorem updSlot_preserves_count (s : ProfState) (i : Nat) (g : ProfSlot → ProfSlot)
    (hg : ∀ q, (g q).count = q.count) (j : Nat) :
    ((updSlot s i g).slots j).count = (s.slots j).count := by
  simp only [updSlot]
  split_ifs
  · exact hg (s.slots j)
  · rfl

theorem updSlot_preserves_backtrace (s : ProfState) (i : Nat)
    (g : ProfSlot → ProfSlot) (hg : ∀ q, (g q).backtrace = q.backtrace) (j : Nat) :
    ((updSlot s i g).slots j).backtrace = (s.slots j).backtrace := by
  simp only [updSlot]
  split_ifs
  · exact hg (s.slots j)
  · rfl

theorem free_slot_descr (s : ProfState) (v : Nat) :
    (prof_free_slot s v).heap_size = s.heap_size
    ∧ (prof_free_slot s v).depth = s.depth
    ∧ (prof_free_slot s v).total = s.total
    ∧ (prof_free_slot s v).others = s.others
    ∧ (prof_free_slot s v).free_list = some v
    ∧ ((prof_free_slot s v).slots v).used = false
    ∧ ((prof_free_slot s v).slots v).count = (s.slots v).count
    ∧ ((prof_free_slot s v).slots v).backtrace = (s.slots v).backtrace
    ∧ ((prof_free_slot s v).slots v).next = s.free_list
    ∧ ∀ j, j ≠ v → ((prof_free_slot s v).slots j).used = (s.slots j).used
        ∧ ((prof_free_slot s v).slots j).count = (s.slots j).count
        ∧ ((prof_free_slot s v).slots j).backtrace = (s.slots j).backtrace := by
  obtain ⟨h1, h2, h3, h4, h5, h6⟩ := unlink_preserves s v
  have ev : (prof_free_slot s v).slots v
      = ⟨(prof_unlink_slot s v).free_list, ((prof_unlink_slot s v).slots v).prev,
         ((prof_unlink_slot s v).slots v).backtrace,
         ((prof_unlink_slot s v).slots v).count, false⟩ := by
    simp [prof_free_slot, updSlot]
  have ej : ∀ j, j ≠ v → (prof_free_slot s v).slots j = (prof_unlink_slot s v).slots j := by
    intro j hj
    simp [prof_free_slot, updSlot, hj]
  refine ⟨h1, h2, h3, h4, rfl, ?_, ?_, ?_, ?_, fun j hj => ?_⟩
  · rw [ev]
  · rw [ev]
    exact (h6 v).2.1
  · rw [ev]
    exact (h6 v).2.2
  · rw [ev]
    exact h5
  · rw [ej j hj]
    exact h6 j

theorem evict_slot_descr (s : ProfState) (v : Nat) :
    (prof_evict_slot s v).heap_size = s.heap_size
    ∧ (prof_evict_slot s v).depth = s.depth
    ∧ (prof_evict_slot s v).total = s.total
    ∧ (prof_evict_slot s v).others = s.others + (s.slots v).count
    ∧ (prof_evict_slot s v).free_list = some v
    ∧ ((prof_evict_slot s v).slots v).used = false
    ∧ ((prof_evict_slot s v).slots v).count = (s.slots v).count
    ∧ ((prof_evict_slot s v).slots v).next = s.free_list
    ∧ ∀ j, j ≠ v → ((prof_evict_slot s v).slots j).used = (s.slots j).used
        ∧ ((prof_evict_slot s v).slots j).count = (s.slots j).count
        ∧ ((prof_evict_slot s v).slots j).backtrace = (s.slots j).backtrace := by
  obtain ⟨h1, h2, h3, h4, h5, h6, h7, h8, h9, h10⟩ :=
    free_slot_descr { s with others := s.others + (s.slots v).count } v
  exact ⟨h1, h2, h3, h4, h5, h6, h7, h9, h10⟩

theorem evict_min_slot_eq (s : ProfState) (v : Nat)
    (hv : prof_evict_min_idx s = some v) :
    prof_evict_min_slot s = prof_evict_slot s v := by
  unfold prof_evict_min_slot
  rw [hv]

theorem evict_min_slot_eq_none (s : ProfState)
    (hv : prof_evict_min_idx s = none) : prof_evict_min_slot s = s := by
  unfold prof_evict_min_slot
  rw [hv]

theorem all_used_of_free_none (s : ProfState) (hfl : s.free_list = none)
    (hagree : ∀ i, i < s.heap_size → (s.slots i).used = false → i ∈ freeNodes s) :
    ∀ i, i < s.heap_size → (s.slots i).used = true := by
  have hempty : freeNodes s = [] := by
    simp [freeNodes, hfl, walkNext]
  intro i hi
  cases hu : (s.slots i).used with
  | false =>
      have hmem := hagree i hi hu
      rw [hempty] at hmem
      simp at hmem
  | true => rfl

theorem allocate_free_eq (s : ProfState) (h0 : Nat) (hf : s.free_list = some h0) :
    prof_allocate_slot s
      = ({ updSlot s h0 (fun q => { q with used := true }) with
           free_list := (s.slots h0).next }, some h0) := by
  simp [prof_allocate_slot, hf, updSlot]

theorem make_free_descr (s : ProfState) (bt : List LObj) (h0 : Nat)
    (hf : s.free_list = some h0) :
    (prof_make_slot s bt).2 = some h0
    ∧ (prof_make_slot s bt).1.heap_size = s.heap_size
    ∧ (prof_make_slot s bt).1.depth = s.depth
    ∧ (prof_make_slot s bt).1.total = s.total
    ∧ (prof_make_slot s bt).1.others = s.others
    ∧ (prof_make_slot s bt).1.table = s.table
    ∧ (prof_make_slot s bt).1.free_list = (s.slots h0).next
    ∧ (prof_make_slot s bt).1.slots h0
        = ⟨none, none, copy_backtrace s.depth bt, 0, true⟩
    ∧ ∀ j, j ≠ h0 → (prof_make_slot s bt).1.slots j = s.slots j := by
  have halloc := allocate_free_eq s h0 hf
  unfold prof_make_slot
  rw [halloc]
  refine ⟨rfl, rfl, rfl, rfl, rfl, rfl, rfl, ?_, fun j hj => ?_⟩
  · simp [updSlot]
  · simp [updSlot, hj]

theorem allocate_evict_eq (s : ProfState) (v : Nat) (hf : s.free_list = none)
    (hv : prof_evict_min_idx s = some v) :
    prof_allocate_slot s
      = ({ updSlot (prof_evict_slot s v) v (fun q => { q with used := true }) with
           free_list := ((prof_evict_slot s v).slots v).next }, some v) := by
  have he := evict_min_slot_eq s v hv
  have hfe : (prof_evict_slot s v).free_list = some v :=
    (evict_slot_descr s v).2.2.2.2.1
  simp [prof_allocate_slot, hf, he, hfe, updSlot]

theorem make_evict_descr (s : ProfState) (bt : List LObj) (v : Nat)
    (hf : s.free_list = none) (hv : prof_evict_min_idx s = some v) :
    (prof_make_slot s bt).2 = some v
    ∧ (prof_make_slot s bt).1.heap_size = s.heap_size
    ∧ (prof_make_slot s bt).1.depth = s.depth
    ∧ (prof_make_slot s bt).1.total = s.total
    ∧ (prof_make_slot s bt).1.others = s.others + (s.slots v).count
    ∧ (prof_make_slot s bt).1.free_list = none
    ∧ (prof_make_slot s bt).1.slots v
        = ⟨none, none, copy_backtrace s.depth bt, 0, true⟩
    ∧ ∀ j, j ≠ v → ((prof_make_slot s bt).1.slots j).used = (s.slots j).used
        ∧ ((prof_make_slot s bt).1.slots j).count = (s.slots j).count
        ∧ ((prof_make_slot s bt).1.slots j).backtrace = (s.slots j).backtrace := by
  obtain ⟨e1, e2, e3, e4, e5, e6, e7, e8, e9⟩ := evict_slot_descr s v
  have halloc := allocate_evict_eq s v hf hv
  unfold prof_make_slot
  rw [halloc]
  refine ⟨rfl, e1, e2, e3, e4, ?_, ?_, fun j hj => ⟨?_, ?_, ?_⟩⟩
  · show ((prof_evict_slot s v).slots v).next = none
    exact e8.trans hf
  · simp [updSlot, e2]
  · simp only [updSlot, hj, if_false]
    exact (e9 j hj).1
  · simp only [updSlot, hj, if_false]
    exact (e9 j hj).2.1
  · simp only [updSlot, hj, if_false]
    exact (e9 j hj).2.2

theorem massInv_updSlot_link (s2 : ProfState) (i : Nat) (g : ProfSlot → ProfSlot)
    (hg1 : ∀ q, (g q).used = q.used) (hg2 : ∀ q, (g q).count = q.count)
    (hm : massInv s2) : massInv (updSlot s2 i g) :=
  massInv_congr s2 (updSlot s2 i g) rfl
    (fun j _ => ⟨updSlot_preserves_used s2 i g hg1 j,
                 updSlot_preserves_count s2 i g hg2 j⟩) rfl rfl hm

theorem massInv_updTable (s2 : ProfState) (b : Nat) (v : Option Nat)
    (hm : massInv s2) : massInv (updTable s2 b v) :=
  massInv_congr s2 (updTable s2 b v) rfl (fun _ _ => ⟨rfl, rfl⟩) rfl rfl hm

theorem prof_backtrace_index_lt (d : Nat) (bt : List LObj) :
    prof_backtrace_index d bt < PROF_HASH_TABLE_SIZE := by
  unfold prof_backtrace_index
  exact Nat.mod_lt _ (by decide)

theorem chain_find_found_mem (s : ProfState) (bt : List LObj) :
    ∀ (fuel : Nat) (h0 pv : Option Nat) (i : Nat) (pv2 : Option Nat),
      prof_chain_find s bt fuel h0 pv = (some i, pv2) → i ∈ walkNext s fuel h0 := by
  intro fuel
  induction fuel with
  | zero =>
      intro h0 pv i pv2 h
      simp [prof_chain_find] at h
  | succ fuel ih =>
      intro h0 pv i pv2 h
      cases h0 with
      | none => simp [prof_chain_find] at h
      | some j =>
          by_cases he : prof_backtrace_equal s.depth bt (s.slots j).backtrace = true
          · have hred : prof_chain_find s bt (fuel + 1) (some j) pv = (some j, pv) := by
              simp [prof_chain_find, he]
            rw [hred] at h
            have hij : j = i := by
              have := congrArg Prod.fst h
              simpa using this
            rw [← hij]
            simp [walkNext]
          · have hred : prof_chain_find s bt (fuel + 1) (some j) pv
                = prof_chain_find s bt fuel (s.slots j).next (some j) := by
              simp [prof_chain_find, he]
            rw [hred] at h
            have hmem := ih (s.slots j).next (some j) i pv2 h
            simp [walkNext]
            right
            exact hmem

theorem ensure_slot_mass (s : ProfState) (bt : List LObj)
    (hOK : structOK s) (hm : massInv s) :
    massInv (prof_ensure_slot s bt).1
    ∧ (prof_ensure_slot s bt).1.total = s.total
    ∧ (prof_ensure_slot s bt).1.heap_size = s.heap_size
    ∧ (∀ i, (prof_ensure_slot s bt).2 = some i →
        i < s.heap_size ∧ ((prof_ensure_slot s bt).1.slots i).used = true) := by
  obtain ⟨hOK1, hOK2, hOK3⟩ := hOK
  cases hfind : prof_chain_find s bt (s.heap_size + 1)
      (s.table (prof_backtrace_index s.depth bt))
      (s.table (prof_backtrace_index s.depth bt)) with
  | mk fnd prevF =>
  cases fnd with
  | some i =>
      have hens : prof_ensure_slot s bt = (s, some i) := by
        unfold prof_ensure_slot
        rw [hfind]
      have hmem : i ∈ chainNodes s (prof_backtrace_index s.depth bt) :=
        chain_find_found_mem s bt _ _ _ i prevF hfind
      obtain ⟨hlt, hused⟩ :=
        hOK3 _ (prof_backtrace_index_lt s.depth bt) i hmem
      rw [hens]
      refine ⟨hm, rfl, rfl, fun i2 hi2 => ?_⟩
      have hii : i = i2 := by simpa using hi2
      rw [← hii]
      exact ⟨hlt, hused⟩
  | none =>
      cases hfl : s.free_list with
      | some h0 =>
          have hmemf : h0 ∈ freeNodes s := by
            simp [freeNodes, hfl, walkNext]
          obtain ⟨hlt, hun⟩ := hOK2 h0 hmemf
          obtain ⟨m1, m2, m3, m4, m5, m6, m7, m8, m9⟩ := make_free_descr s bt h0 hfl
          cases hmk : prof_make_slot s bt with
          | mk s1 r =>
          rw [hmk] at m1 m2 m3 m4 m5 m6 m7 m8 m9
          dsimp only at m1 m2 m3 m4 m5 m6 m7 m8 m9
          subst m1
          have hm1 : massInv s1 := by
            apply mass_step s s1 h0 hlt m2
            · intro j hj hne
              exact contrib_congr s s1 j (congrArg ProfSlot.used (m9 j hne))
                (congrArg ProfSlot.count (m9 j hne))
            · have hc1 : contrib s h0 = 0 := by
                simp [contrib, hun]
              have hc2 : contrib s1 h0 = 0 := by
                simp [contrib, m8]
              omega
            · exact hm
          have hused1 : (s1.slots h0).used = true := by
            rw [m8]
          cases prevF with
          | some p =>
              have hens : prof_ensure_slot s bt
                  = (updSlot (updSlot s1 h0 (fun q => { q with prev := some p }))
                      p (fun q => { q with next := some h0 }), some h0) := by
                unfold prof_ensure_slot
                rw [hfind, hmk]
              rw [hens]
              refine ⟨?_, m4, m2, fun i2 hi2 => ?_⟩
              · apply massInv_updSlot_link
                · intro q; rfl
                · intro q; rfl
                · apply massInv_updSlot_link
                  · intro q; rfl
                  · intro q; rfl
                  · exact hm1
              · have hii : h0 = i2 := by simpa using hi2
                rw [← hii]
                refine ⟨hlt, ?_⟩
                dsimp only
                rw [updSlot_preserves_used _ p (fun q => { q with next := some h0 })
                    (fun q => rfl) h0]
                rw [updSlot_preserves_used s1 h0 (fun q => { q with prev := some p })
                    (fun q => rfl) h0]
                exact hused1
          | none =>
              have hens : prof_ensure_slot s bt
                  = (updTable s1 (prof_backtrace_index s.depth bt) (some h0),
                     some h0) := by
                unfold prof_ensure_slot
                rw [hfind, hmk]
              rw [hens]
              refine ⟨massInv_updTable s1 _ _ hm1, m4, m2, fun i2 hi2 => ?_⟩
              have hii : h0 = i2 := by simpa using hi2
              rw [← hii]
              exact ⟨hlt, hused1⟩
      | none =>
          cases hv : prof_evict_min_idx s with
          | none =>
              have hmk : prof_make_slot s bt = (s, none) := by
                simp [prof_make_slot, prof_allocate_slot, hfl,
                  evict_min_slot_eq_none s hv]
              have hens : prof_ensure_slot s bt = (s, none) := by
                unfold prof_ensure_slot
                rw [hfind, hmk]
              rw [hens]
              exact ⟨hm, rfl, rfl, fun i2 hi2 => by simp at hi2⟩
          | some v =>
              have hall := all_used_of_free_none s hfl hOK1
              have hv2 : prof_evict_scan s s.heap_size = some v := hv
              have hvlt : v < s.heap_size := prof_evict_scan_lt s s.heap_size v hv2
              have hvused : (s.slots v).used = true := hall v hvlt
              obtain ⟨m1, m2, m3, m4, m5, m6, m7, m8⟩ := make_evict_descr s bt v hfl hv
              cases hmk : prof_make_slot s bt with
              | mk s1 r =>
              rw [hmk] at m1 m2 m3 m4 m5 m6 m7 m8
              dsimp only at m1 m2 m3 m4 m5 m6 m7 m8
              subst m1
              have hm1 : massInv s1 := by
                apply mass_step s s1 v hvlt m2
                · intro j hj hne
                  exact contrib_congr s s1 j ((m8 j hne).1) ((m8 j hne).2.1)
                · have hc1 : contrib s v = (s.slots v).count := by
                    simp [contrib, hvused]
                  have hc2 : contrib s1 v = 0 := by
                    simp [contrib, m7]
                  omega
                · exact hm
              have hused1 : (s1.slots v).used = true := by
                rw [m7]
              cases prevF with
              | some p =>
                  have hens : prof_ensure_slot s bt
                      = (updSlot (updSlot s1 v (fun q => { q with prev := some p }))
                          p (fun q => { q with next := some v }), some v) := by
                    unfold prof_ensure_slot
                    rw [hfind, hmk]
                  rw [hens]
                  refine ⟨?_, m4, m2, fun i2 hi2 => ?_⟩
                  · apply massInv_updSlot_link
                    · intro q; rfl
                    · intro q; rfl
                    · apply massInv_updSlot_link
                      · intro q; rfl
                      · intro q; rfl
                      · exact hm1
                  · have hii : v = i2 := by simpa using hi2
                    rw [← hii]
                    refine ⟨hvlt, ?_⟩
                    dsimp only
                    rw [updSlot_preserves_used _ p (fun q => { q with next := some v })
                        (fun q => rfl) v]
                    rw [updSlot_preserves_used s1 v (fun q => { q with prev := some p })
                        (fun q => rfl) v]
                    exact hused1
              | none =>
                  have hens : prof_ensure_slot s bt
                      = (updTable s1 (prof_backtrace_index s.depth bt) (some v),
                         some v) := by
                    unfold prof_ensure_slot
                    rw [hfind, hmk]
                  rw [hens]
                  refine ⟨massInv_updTable s1 _ _ hm1, m4, m2, fun i2 hi2 => ?_⟩
                  have hii : v = i2 := by simpa using hi2
                  rw [← hii]
                  exact ⟨hvlt, hused1⟩

/-- C4: the accounting equation total = used-slot counts + others holds
across every operation observed outside the critical section: one handler
step preserves it (slot count and total are incremented together, and an
eviction moves the victim's count into others), the bucket lookup-or-create
itself preserves it, a bare minimum-count eviction preserves it, stopping
mutates no aggregation state, and the snapshot reports exactly
usedMass + others as its sample count.  The structural hypotheses are the
used/free-list agreement and chain well-formedness of the observed state. -/
theorem C4_total_is_used_plus_others (s : ProfState) (bt : List LObj)
    (hOK : structOK s) (hm : massInv s) :
    massInv (prof_handle_sample s bt)
    ∧ massInv (prof_ensure_slot s bt).1
    ∧ (s.free_list = none → massInv (prof_evict_min_slot s))
    ∧ (∀ p : Profiler, (Fprofiler_stop_sampling p).pool = p.pool)
    ∧ (∀ (p : Profiler) (now2 : Nat) (snap : Snapshot), p.pool = some s →
        Fprofiler_take_snapshot now2 p = some snap →
        snap.sample_count = usedMass s + s.others) := by
  obtain ⟨hmass1, htot1, hsz1, hret⟩ := ensure_slot_mass s bt hOK hm
  refine ⟨?_, hmass1, ?_, fun p => rfl, fun p now2 snap hpool hsnap => ?_⟩
  · unfold prof_handle_sample
    by_cases h0 : btGet bt 0 = LObj.nil
    · rw [if_pos h0]
      exact hm
    · rw [if_neg h0]
      cases hens : prof_ensure_slot s bt with
      | mk s1 r =>
      rw [hens] at hmass1 htot1 hsz1 hret
      dsimp only at hmass1 htot1 hsz1 hret
      cases r with
      | none => exact hmass1
      | some i =>
          obtain ⟨hilt, hiused⟩ := hret i rfl
          show massInv { updSlot s1 i (fun q => { q with count := q.count + 1 }) with
            total := s1.total + 1 }
          have hi1 : i < s1.heap_size := by omega
          apply mass_step s1
            { updSlot s1 i (fun q => { q with count := q.count + 1 }) with
              total := s1.total + 1 } i hi1 rfl
          · intro j hj hne
            exact contrib_congr s1 _ j
              (congrArg ProfSlot.used
                (updSlot_slots_other s1 i (fun q => { q with count := q.count + 1 }) j hne))
              (congrArg ProfSlot.count
                (updSlot_slots_other s1 i (fun q => { q with count := q.count + 1 }) j hne))
          · have hc1 : contrib s1 i = (s1.slots i).count := by
              simp [contrib, hiused]
            have hc2 : contrib { updSlot s1 i (fun q => { q with count := q.count + 1 }) with
                total := s1.total + 1 } i = (s1.slots i).count + 1 := by
              simp [contrib, updSlot_slots_same, hiused]
            have et : ({ updSlot s1 i (fun q => { q with count := q.count + 1 }) with
                total := s1.total + 1 } : ProfState).total = s1.total + 1 := rfl
            have eo : ({ updSlot s1 i (fun q => { q with count := q.count + 1 }) with
                total := s1.total + 1 } : ProfState).others = s1.others := rfl
            omega
          · exact hmass1
  · intro hfl
    cases hv : prof_evict_min_idx s with
    | none =>
        rw [evict_min_slot_eq_none s hv]
        exact hm
    | some v =>
        rw [evict_min_slot_eq s v hv]
        have hall := all_used_of_free_none s hfl hOK.1
        have hv2 : prof_evict_scan s s.heap_size = some v := hv
        have hvlt : v < s.heap_size := prof_evict_scan_lt s s.heap_size v hv2
        have hvused : (s.slots v).used = true := hall v hvlt
        obtain ⟨e1, e2, e3, e4, e5, e6, e7, e8, e9⟩ := evict_slot_descr s v
        apply mass_step s (prof_evict_slot s v) v hvlt e1
        · intro j hj hne
          exact contrib_congr s _ j (e9 j hne).1 (e9 j hne).2.1
        · have hc1 : contrib s v = (s.slots v).count := by
            simp [contrib, hvused]
          have hc2 : contrib (prof_evict_slot s v) v = 0 := by
            simp [contrib, e6]
          omega
        · exact hm
  · simp [Fprofiler_take_snapshot, hpool] at hsnap
    rw [← hsnap]
    exact hm

/-- Witness for C4_total_is_used_plus_others at a concrete full pool. -/
theorem C4_total_is_used_plus_others_witness :
    structOK c1_state ∧ massInv c1_state
    ∧ massInv (prof_handle_sample c1_state [LObj.sym 9]) :=
  ⟨by unfold structOK; decide, by unfold massInv; decide,
   (C4_total_is_used_plus_others c1_state [LObj.sym 9]
     (by unfold structOK; decide) (by unfold massInv; decide)).1⟩

theorem list_all_congr (l : List Nat) (f g : Nat → Bool)
    (h : ∀ x ∈ l, f x = g x) : l.all f = l.all g := by
  induction l with
  | nil => rfl
  | cons x xs ih =>
      simp only [List.all_cons]
      rw [h x (by simp), ih (fun y hy => h y (by simp [hy]))]

theorem list_foldl_congr (l : List Nat) (f g : Nat → Nat → Nat) :
    ∀ a : Nat, (∀ b x, x ∈ l → f b x = g b x) → l.foldl f a = l.foldl g a := by
  induction l with
  | nil => intro a _; rfl
  | cons x xs ih =>
      intro a h
      simp only [List.foldl_cons]
      rw [h a x (by simp)]
      exact ih _ (fun b y hy => h b y (by simp [hy]))

theorem btGet_copy (d : Nat) (bt : List LObj) (i : Nat) (h : i < d) :
    btGet (copy_backtrace d bt) i = btGet bt i := by
  unfold btGet copy_backtrace
  rw [List.getD_eq_getElem?_getD, List.getElem?_map, List.getElem?_range h]
  rfl

theorem prof_backtrace_equal_copy (d : Nat) (a b : List LObj) :
    prof_backtrace_equal d a (copy_backtrace d b) = prof_backtrace_equal d a b := by
  unfold prof_backtrace_equal
  apply list_all_congr
  intro i hi
  rw [btGet_copy d b i (List.mem_range.mp hi)]

theorem prof_backtrace_index_copy (d : Nat) (b : List LObj) :
    prof_backtrace_index d (copy_backtrace d b) = prof_backtrace_index d b := by
  unfold prof_backtrace_index prof_backtrace_hash
  rw [list_foldl_congr _ _ _ 0
    (fun a i hi => by rw [btGet_copy d b i (List.mem_range.mp hi)])]

theorem chainOf_mem (d : Nat) (bts : List (List LObj)) (b k j : Nat) :
    j ∈ chainOf d bts b k
      ↔ j < k ∧ prof_backtrace_index d (bts.getD j []) = b := by
  simp [chainOf, List.mem_filter, List.mem_range]

theorem chainOf_zero (d : Nat) (bts : List (List LObj)) (b : Nat) :
    chainOf d bts b 0 = [] := rfl

theorem chainOf_succ_hit (d : Nat) (bts : List (List LObj)) (b k : Nat)
    (h : prof_backtrace_index d (bts.getD k []) = b) :
    chainOf d bts b (k + 1) = chainOf d bts b k ++ [k] := by
  have hk : (prof_backtrace_index d (bts.getD k []) == b) = true := beq_iff_eq.mpr h
  unfold chainOf
  rw [List.range_succ, List.filter_append]
  simp [hk]
  rwa [List.getD_eq_getElem?_getD] at h

theorem chainOf_succ_miss (d : Nat) (bts : List (List LObj)) (b k : Nat)
    (h : prof_backtrace_index d (bts.getD k []) ≠ b) :
    chainOf d bts b (k + 1) = chainOf d bts b k := by
  have hk : (prof_backtrace_index d (bts.getD k []) == b) = false :=
    beq_eq_false_iff_ne.mpr h
  unfold chainOf
  rw [List.range_succ, List.filter_append]
  simp [hk]
  rwa [List.getD_eq_getElem?_getD] at h

theorem chainOf_nodup (d : Nat) (bts : List (List LObj)) (b k : Nat) :
    (chainOf d bts b k).Nodup :=
  (List.nodup_range k).filter _

theorem lastOr_nil (pv : Option Nat) : lastOr [] pv = pv := rfl

theorem lastOr_cons (j : Nat) (rest : List Nat) (pv : Option Nat) :
    lastOr (j :: rest) pv = lastOr rest (some j) := rfl

theorem mem_of_getLast_eq (a : Nat) :
    ∀ l : List Nat, l.getLast? = some a → a ∈ l := by
  intro l
  induction l with
  | nil => simp
  | cons x xs ih =>
      cases xs with
      | nil =>
          intro h
          simp at h
          simp [h]
      | cons y ys =>
          intro h
          rw [List.getLast?_cons_cons] at h
          exact List.mem_cons_of_mem x (ih h)

theorem Linked_congr (s s2 : ProfState) :
    ∀ (L : List Nat) (h pv : Option Nat),
      (∀ j ∈ L, s2.slots j = s.slots j) → Linked s h pv L → Linked s2 h pv L := by
  intro L
  induction L with
  | nil => intro h pv _ hl; exact hl
  | cons j rest ih =>
      intro h pv hag hl
      obtain ⟨h1, h2, h3⟩ := hl
      have hj : s2.slots j = s.slots j := hag j (by simp)
      refine ⟨h1, ?_, ?_⟩
      · rw [hj]
        exact h2
      · rw [hj]
        exact ih _ _ (fun y hy => hag y (by simp [hy])) h3

theorem chain_find_miss (s : ProfState) (bt : List LObj) :
    ∀ (L : List Nat) (fuel : Nat) (h pv pv0 : Option Nat),
      Linked s h pv L → L.length < fuel →
      (∀ j ∈ L, prof_backtrace_equal s.depth bt (s.slots j).backtrace = false) →
      prof_chain_find s bt fuel h pv0 = (none, lastOr L pv0) := by
  intro L
  induction L with
  | nil =>
      intro fuel h pv pv0 hl hf _
      subst hl
      cases fuel with
      | zero => omega
      | succ f => rfl
  | cons j rest ih =>
      intro fuel h pv pv0 hl hf hne
      obtain ⟨h1, h2, h3⟩ := hl
      subst h1
      cases fuel with
      | zero => simp at hf
      | succ f =>
          have hej : prof_backtrace_equal s.depth bt (s.slots j).backtrace = false :=
            hne j (by simp)
          have hred : prof_chain_find s bt (f + 1) (some j) pv0
              = prof_chain_find s bt f (s.slots j).next (some j) := by
            simp [prof_chain_find, hej]
          rw [hred, lastOr_cons]
          refine ih f _ _ (some j) h3 ?_ (fun y hy => hne y (by simp [hy]))
          simp at hf
          omega

theorem Linked_snoc (s s2 : ProfState) (k : Nat) :
    ∀ (L : List Nat) (h pv : Option Nat) (p : Nat),
      Linked s h pv L → L.getLast? = some p → L.Nodup → k ∉ L →
      (s2.slots p).next = some k →
      (s2.slots p).prev = (s.slots p).prev →
      (∀ j, j ∈ L → j ≠ p → s2.slots j = s.slots j) →
      (s2.slots k).prev = some p → (s2.slots k).next = none →
      Linked s2 h pv (L ++ [k]) := by
  intro L
  induction L with
  | nil =>
      intro h pv p _ hlast
      simp at hlast
  | cons j rest ih =>
      intro h pv p hl hlast hnd hk hnx hpv hag hkp hkn
      obtain ⟨h1, h2, h3⟩ := hl
      subst h1
      cases rest with
      | nil =>
          have hpj : p = j := by
            simp at hlast
            exact hlast.symm
          subst hpj
          refine ⟨rfl, ?_, ?_⟩
          · rw [hpv]
            exact h2
          · rw [hnx]
            exact ⟨rfl, hkp, hkn⟩
      | cons r rs =>
          have hlast2 : (r :: rs).getLast? = some p := by
            rw [← List.getLast?_cons_cons (a := j)]
            exact hlast
          have hpmem : p ∈ r :: rs := mem_of_getLast_eq p _ hlast2
          have hjnotin : j ∉ r :: rs := (List.nodup_cons.mp hnd).1
          have hjp : j ≠ p := fun he => hjnotin (he ▸ hpmem)
          refine ⟨rfl, ?_, ?_⟩
          · rw [hag j (by simp) hjp]
            exact h2
          · rw [hag j (by simp) hjp]
            exact ih _ _ p h3 hlast2 (List.nodup_cons.mp hnd).2
              (fun hm => hk (by simp [hm])) hnx hpv
              (fun y hy hyp => hag y (by simp [hy]) hyp) hkp hkn

theorem getLast_eq_none_nil : ∀ l : List Nat, l.getLast? = none → l = [] := by
  intro l
  induction l with
  | nil => intro _; rfl
  | cons x xs ih =>
      intro h
      cases xs with
      | nil => simp at h
      | cons y ys =>
          rw [List.getLast?_cons_cons] at h
          exact absurd (ih h) (by simp)

theorem lastOr_eq_some (a : Nat) :
    ∀ (L : List Nat) (pv : Option Nat), L.getLast? = some a → lastOr L pv = some a := by
  intro L
  induction L with
  | nil => intro pv h; simp at h
  | cons j rest ih =>
      intro pv h
      cases rest with
      | nil =>
          simp at h
          rw [lastOr_cons, lastOr_nil, h]
      | cons r rs =>
          rw [List.getLast?_cons_cons] at h
          rw [lastOr_cons]
          exact ih _ h

theorem handle_create_descr (s : ProfState) (bt : List LObj) (S2 : ProfState)
    (i : Nat) (hd0 : ¬(btGet bt 0 = LObj.nil))
    (hens : prof_ensure_slot s bt = (S2, some i)) :
    prof_handle_sample s bt
      = { updSlot S2 i (fun q => { q with count := q.count + 1 }) with
          total := S2.total + 1 } := by
  unfold prof_handle_sample
  rw [if_neg hd0, hens]

theorem fillInv_step (d N : Nat) (bts : List (List LObj)) (k : Nat) (s : ProfState)
    (hk : k < N) (hinv : fillInv d N bts k s)
    (hd0 : ¬(btGet (bts.getD k []) 0 = LObj.nil))
    (hdist : ∀ j, j < k →
      prof_backtrace_equal d (bts.getD k []) (bts.getD j []) = false) :
    fillInv d N bts (k + 1) (prof_handle_sample s (bts.getD k [])) := by
  obtain ⟨hdep, hsz, hoth, htot, hfl, htail, hslots, hchain⟩ := hinv
  have hfl2 : s.free_list = some k := by rw [hfl, if_pos hk]
  obtain ⟨m1, m2, m3, m4, m5, m6, m7, m8, m9⟩ :=
    make_free_descr s (bts.getD k []) k hfl2
  rw [hdep] at m8
  cases hmk : prof_make_slot s (bts.getD k []) with
  | mk S1 r =>
  rw [hmk] at m1 m2 m3 m4 m5 m6 m7 m8 m9
  dsimp only at m1 m2 m3 m4 m5 m6 m7 m8 m9
  subst m1
  have hbd : prof_backtrace_index d (bts.getD k [])
      = prof_backtrace_index s.depth (bts.getD k []) := by rw [hdep]
  have hLlen : (chainOf d bts (prof_backtrace_index s.depth (bts.getD k [])) k).length
      < s.heap_size + 1 := by
    have h1 : (chainOf d bts (prof_backtrace_index s.depth (bts.getD k [])) k).length
        ≤ (List.range k).length := List.length_filter_le _ _
    rw [List.length_range] at h1
    omega
  have hLne : ∀ j ∈ chainOf d bts (prof_backtrace_index s.depth (bts.getD k [])) k,
      prof_backtrace_equal s.depth (bts.getD k []) (s.slots j).backtrace = false := by
    intro j hj
    obtain ⟨hjk, _⟩ := (chainOf_mem d bts _ k j).mp hj
    rw [(hslots j hjk).2.2, hdep, prof_backtrace_equal_copy]
    exact hdist j hjk
  have hfind := chain_find_miss s (bts.getD k [])
    (chainOf d bts (prof_backtrace_index s.depth (bts.getD k [])) k)
    (s.heap_size + 1)
    (s.table (prof_backtrace_index s.depth (bts.getD k []))) none
    (s.table (prof_backtrace_index s.depth (bts.getD k [])))
    (hchain _) hLlen hLne
  have hfreeval : (s.slots k).next = if k + 1 < N then some (k + 1) else none := by
    rw [htail k (le_refl k)]
    rfl
  cases hlast : (chainOf d bts (prof_backtrace_index s.depth (bts.getD k [])) k).getLast? with
  | none =>
      have hLnil : chainOf d bts (prof_backtrace_index s.depth (bts.getD k [])) k = [] :=
        getLast_eq_none_nil _ hlast
      have htb : s.table (prof_backtrace_index s.depth (bts.getD k [])) = none := by
        have hx := hchain (prof_backtrace_index s.depth (bts.getD k []))
        rw [hLnil] at hx
        exact hx
      have hfind2 : prof_chain_find s (bts.getD k []) (s.heap_size + 1)
          (s.table (prof_backtrace_index s.depth (bts.getD k [])))
          (s.table (prof_backtrace_index s.depth (bts.getD k []))) = (none, none) := by
        rw [hfind, hLnil, lastOr_nil, htb]
      have hens : prof_ensure_slot s (bts.getD k [])
          = (updTable S1 (prof_backtrace_index s.depth (bts.getD k [])) (some k),
             some k) := by
        unfold prof_ensure_slot
        rw [hfind2, hmk]
      generalize hE : updTable S1 (prof_backtrace_index s.depth (bts.getD k []))
        (some k) = E at hens
      have hEslots : E.slots = S1.slots := by rw [← hE]; rfl
      have hEtab : ∀ c, E.table c
          = if c = prof_backtrace_index s.depth (bts.getD k []) then some k
            else S1.table c := by
        rw [← hE]
        intro c
        rfl
      have hEtot : E.total = S1.total := by rw [← hE]; rfl
      have hEfree : E.free_list = S1.free_list := by rw [← hE]; rfl
      have hEdep : E.depth = S1.depth := by rw [← hE]; rfl
      have hEsz : E.heap_size = S1.heap_size := by rw [← hE]; rfl
      have hEoth : E.others = S1.others := by rw [← hE]; rfl
      rw [handle_create_descr s (bts.getD k []) E k hd0 hens]
      have hFs : ({ updSlot E k (fun q => { q with count := q.count + 1 }) with
          total := E.total + 1 } : ProfState).slots k
          = ⟨none, none, copy_backtrace d (bts.getD k []), 1, true⟩ := by
        rw [show ({ updSlot E k (fun q => { q with count := q.count + 1 }) with
            total := E.total + 1 } : ProfState).slots k
          = (updSlot E k (fun q => { q with count := q.count + 1 })).slots k from rfl]
        rw [updSlot_slots_same, congrFun hEslots k, m8]
      have hFso : ∀ j, j ≠ k →
          ({ updSlot E k (fun q => { q with count := q.count + 1 }) with
            total := E.total + 1 } : ProfState).slots j = s.slots j := by
        intro j hj
        rw [show ({ updSlot E k (fun q => { q with count := q.count + 1 }) with
            total := E.total + 1 } : ProfState).slots j
          = (updSlot E k (fun q => { q with count := q.count + 1 })).slots j from rfl]
        rw [updSlot_slots_other E k _ j hj, congrFun hEslots j]
        exact m9 j hj
      have hFtab : ∀ c, ({ updSlot E k (fun q => { q with count := q.count + 1 }) with
          total := E.total + 1 } : ProfState).table c = E.table c := fun c => rfl
      refine ⟨?_, ?_, ?_, ?_, ?_, ?_, ?_, ?_⟩
      · show E.depth = d
        rw [hEdep, m3, hdep]
      · show E.heap_size = N
        rw [hEsz, m2, hsz]
      · show E.others = 0
        rw [hEoth, m5, hoth]
      · show E.total + 1 = k + 1
        rw [hEtot, m4, htot]
      · show E.free_list = if k + 1 < N then some (k + 1) else none
        rw [hEfree, m7, hfreeval]
      · intro j hj
        have hjk : j ≠ k := by omega
        rw [hFso j hjk]
        exact htail j (by omega)
      · intro j hj
        by_cases hjk : j = k
        · subst hjk
          refine ⟨?_, ?_, ?_⟩ <;> rw [hFs]
        · rw [hFso j hjk]
          exact hslots j (by omega)
      · intro b2
        by_cases hb2 : prof_backtrace_index d (bts.getD k []) = b2
        · have hb2s : b2 = prof_backtrace_index s.depth (bts.getD k []) := by
            rw [← hb2, hbd]
          rw [chainOf_succ_hit d bts b2 k hb2]
          rw [show chainOf d bts b2 k
              = chainOf d bts (prof_backtrace_index s.depth (bts.getD k [])) k from by
            rw [hb2s]]
          rw [hLnil, List.nil_append]
          refine ⟨?_, ?_, ?_⟩
          · rw [hFtab b2, hEtab b2, if_pos hb2s]
          · rw [hFs]
          · rw [hFs]
            rfl
        · have hb2s : b2 ≠ prof_backtrace_index s.depth (bts.getD k []) := by
            rw [← hbd]
            exact fun he => hb2 he.symm
          rw [chainOf_succ_miss d bts b2 k hb2]
          have ht2 : ({ updSlot E k (fun q => { q with count := q.count + 1 }) with
              total := E.total + 1 } : ProfState).table b2 = s.table b2 := by
            rw [hFtab b2, hEtab b2, if_neg hb2s]
            exact congrFun m6 b2
          rw [ht2]
          refine Linked_congr s _ _ _ _ ?_ (hchain b2)
          intro j hj
          obtain ⟨hjlt, _⟩ := (chainOf_mem d bts b2 k j).mp hj
          exact hFso j (by omega)
  | some p =>
      obtain ⟨hplt, hpbkt⟩ := (chainOf_mem d bts _ k p).mp
        (mem_of_getLast_eq p _ hlast)
      have hpk : p ≠ k := by omega
      have hkp : k ≠ p := fun he => hpk he.symm
      have hfind2 : prof_chain_find s (bts.getD k []) (s.heap_size + 1)
          (s.table (prof_backtrace_index s.depth (bts.getD k [])))
          (s.table (prof_backtrace_index s.depth (bts.getD k []))) = (none, some p) := by
        rw [hfind, lastOr_eq_some p _ _ hlast]
      have hens : prof_ensure_slot s (bts.getD k [])
          = (updSlot (updSlot S1 k (fun q => { q with prev := some p })) p
              (fun q => { q with next := some k }), some k) := by
        unfold prof_ensure_slot
        rw [hfind2, hmk]
      generalize hE : updSlot (updSlot S1 k (fun q => { q with prev := some p })) p
        (fun q => { q with next := some k }) = E at hens
      have hEk : E.slots k = ⟨none, some p, copy_backtrace d (bts.getD k []), 0, true⟩ := by
        rw [← hE, updSlot_slots_other _ p _ k hkp, updSlot_slots_same, m8]
      have hEp : E.slots p = ⟨some k, (s.slots p).prev, (s.slots p).backtrace,
          (s.slots p).count, (s.slots p).used⟩ := by
        rw [← hE, updSlot_slots_same, updSlot_slots_other S1 k _ p hpk, m9 p hpk]
      have hEo : ∀ j, j ≠ k → j ≠ p → E.slots j = s.slots j := by
        intro j h1 h2
        rw [← hE, updSlot_slots_other _ p _ j h2, updSlot_slots_other S1 k _ j h1]
        exact m9 j h1
      have hEtab : E.table = s.table := by
        rw [← hE]
        exact m6
      have hEtot : E.total = S1.total := by rw [← hE]; rfl
      have hEfree : E.free_list = S1.free_list := by rw [← hE]; rfl
      have hEdep : E.depth = S1.depth := by rw [← hE]; rfl
      have hEsz : E.heap_size = S1.heap_size := by rw [← hE]; rfl
      have hEoth : E.others = S1.others := by rw [← hE]; rfl
      rw [handle_create_descr s (bts.getD k []) E k hd0 hens]
      have hFs : ({ updSlot E k (fun q => { q with count := q.count + 1 }) with
          total := E.total + 1 } : ProfState).slots k
          = ⟨none, some p, copy_backtrace d (bts.getD k []), 1, true⟩ := by
        rw [show ({ updSlot E k (fun q => { q with count := q.count + 1 }) with
            total := E.total + 1 } : ProfState).slots k
          = (updSlot E k (fun q => { q with count := q.count + 1 })).slots k from rfl]
        rw [updSlot_slots_same, hEk]
      have hFse : ∀ j, j ≠ k →
          ({ updSlot E k (fun q => { q with count := q.count + 1 }) with
            total := E.total + 1 } : ProfState).slots j = E.slots j := by
        intro j hj
        rw [show ({ updSlot E k (fun q => { q with count := q.count + 1 }) with
            total := E.total + 1 } : ProfState).slots j
          = (updSlot E k (fun q => { q with count := q.count + 1 })).slots j from rfl]
        exact updSlot_slots_other E k _ j hj
      have hFso : ∀ j, j ≠ k → j ≠ p →
          ({ updSlot E k (fun q => { q with count := q.count + 1 }) with
            total := E.total + 1 } : ProfState).slots j = s.slots j := by
        intro j h1 h2
        rw [hFse j h1]
        exact hEo j h1 h2
      have hFtab : ∀ c, ({ updSlot E k (fun q => { q with count := q.count + 1 }) with
          total := E.total + 1 } : ProfState).table c = E.table c := fun c => rfl
      refine ⟨?_, ?_, ?_, ?_, ?_, ?_, ?_, ?_⟩
      · show E.depth = d
        rw [hEdep, m3, hdep]
      · show E.heap_size = N
        rw [hEsz, m2, hsz]
      · show E.others = 0
        rw [hEoth, m5, hoth]
      · show E.total + 1 = k + 1
        rw [hEtot, m4, htot]
      · show E.free_list = if k + 1 < N then some (k + 1) else none
        rw [hEfree, m7, hfreeval]
      · intro j hj
        have h1 : j ≠ k := by omega
        have h2 : j ≠ p := by omega
        rw [hFso j h1 h2]
        exact htail j (by omega)
      · intro j hj
        by_cases hjk : j = k
        · subst hjk
          refine ⟨?_, ?_, ?_⟩ <;> rw [hFs]
        · by_cases hjp : j = p
          · subst hjp
            rw [hFse j hjk, hEp]
            exact hslots j hplt
          · rw [hFso j hjk hjp]
            exact hslots j (by omega)
      · intro b2
        by_cases hb2 : prof_backtrace_index d (bts.getD k []) = b2
        · have hb2s : b2 = prof_backtrace_index s.depth (bts.getD k []) := by
            rw [← hb2, hbd]
          rw [chainOf_succ_hit d bts b2 k hb2]
          rw [show chainOf d bts b2 k
              = chainOf d bts (prof_backtrace_index s.depth (bts.getD k [])) k from by
            rw [hb2s]]
          have ht2 : ({ updSlot E k (fun q => { q with count := q.count + 1 }) with
              total := E.total + 1 } : ProfState).table b2
              = s.table (prof_backtrace_index s.depth (bts.getD k [])) := by
            rw [hFtab b2, congrFun hEtab b2, hb2s]
          rw [ht2]
          refine Linked_snoc s _ k _ _ _ p (hchain _) hlast (chainOf_nodup d bts _ k)
            ?_ ?_ ?_ ?_ ?_ ?_
          · intro hmem
            exact absurd ((chainOf_mem d bts _ k k).mp hmem).1 (lt_irrefl k)
          · rw [hFse p hpk, hEp]
          · rw [hFse p hpk, hEp]
          · intro j hj hjp
            obtain ⟨hjlt, _⟩ := (chainOf_mem d bts _ k j).mp hj
            exact hFso j (by omega) hjp
          · rw [hFs]
          · rw [hFs]
        · have hb2s : b2 ≠ prof_backtrace_index s.depth (bts.getD k []) := by
            rw [← hbd]
            exact fun he => hb2 he.symm
          rw [chainOf_succ_miss d bts b2 k hb2]
          have ht2 : ({ updSlot E k (fun q => { q with count := q.count + 1 }) with
              total := E.total + 1 } : ProfState).table b2 = s.table b2 := by
            rw [hFtab b2, congrFun hEtab b2]
          rw [ht2]
          refine Linked_congr s _ _ _ _ ?_ (hchain b2)
          intro j hj
          obtain ⟨hjlt, hjb⟩ := (chainOf_mem d bts b2 k j).mp hj
          have hjp : j ≠ p := by
            intro he
            subst he
            rw [hpbkt] at hjb
            rw [← hbd] at hjb
            exact hb2 hjb
          exact hFso j (by omega) hjp

theorem fillInv_zero (d N : Nat) (bts : List (List LObj)) :
    fillInv d N bts 0 (prof_init d N) := by
  refine ⟨rfl, rfl, rfl, rfl, ?_, fun j _ => rfl,
    fun j hj => absurd hj (by omega), fun b => rfl⟩
  show (if N = 0 then none else some 0) = if 0 < N then some 0 else none
  by_cases hN : N = 0
  · rw [if_pos hN, if_neg (by omega)]
  · rw [if_neg hN, if_pos (by omega)]

theorem fillInv_all (d N : Nat) (bts : List (List LObj)) (hlen : bts.length = N)
    (hnn : ∀ j, j < N → ¬(btGet (bts.getD j []) 0 = LObj.nil))
    (hpair : ∀ j k2, j < k2 → k2 < N →
      prof_backtrace_equal d (bts.getD k2 []) (bts.getD j []) = false) :
    ∀ k, k ≤ N → fillInv d N bts k (sampleList (prof_init d N) (List.take k bts)) := by
  intro k
  induction k with
  | zero =>
      intro _
      exact fillInv_zero d N bts
  | succ k ih =>
      intro hk1
      have hk : k < N := by omega
      have hklen : k < bts.length := by omega
      have htake : List.take (k + 1) bts = List.take k bts ++ [bts.getD k []] := by
        rw [List.take_succ]
        congr 1
        rw [List.getElem?_eq_getElem hklen]
        simp [List.getD_eq_getElem?_getD, List.getElem?_eq_getElem hklen]
      rw [htake]
      rw [show sampleList (prof_init d N) (List.take k bts ++ [bts.getD k []])
          = prof_handle_sample (sampleList (prof_init d N) (List.take k bts))
              (bts.getD k []) from by
        unfold sampleList
        rw [List.foldl_append]
        rfl]
      exact fillInv_step d N bts k _ hk (ih (by omega)) (hnn k hk)
        (fun j hj => hpair j k hj hk)

theorem c6_final_assemble (sN S1 E : ProfState) (bt2 : List LObj) (d : Nat)
    (hens : prof_ensure_slot sN bt2 = (E, some 0))
    (hd0 : ¬(btGet bt2 0 = LObj.nil))
    (hu : ∀ j, (E.slots j).used = (S1.slots j).used)
    (hc : ∀ j, (E.slots j).count = (S1.slots j).count)
    (hbt : ∀ j, (E.slots j).backtrace = (S1.slots j).backtrace)
    (htotE : E.total = S1.total) (hothE : E.others = S1.others)
    (mtot : S1.total = sN.total)
    (moth : S1.others = sN.others + (sN.slots 0).count)
    (mu0 : (S1.slots 0).used = true)
    (mc0 : (S1.slots 0).count = 0)
    (mb0 : (S1.slots 0).backtrace = copy_backtrace d bt2)
    (mrest : ∀ j, j ≠ 0 → (S1.slots j).used = (sN.slots j).used
        ∧ (S1.slots j).count = (sN.slots j).count
        ∧ (S1.slots j).backtrace = (sN.slots j).backtrace) :
    (prof_handle_sample sN bt2).others = sN.others + (sN.slots 0).count
    ∧ ((prof_handle_sample sN bt2).slots 0).used = true
    ∧ ((prof_handle_sample sN bt2).slots 0).count = 1
    ∧ ((prof_handle_sample sN bt2).slots 0).backtrace = copy_backtrace d bt2
    ∧ (prof_handle_sample sN bt2).total = sN.total + 1
    ∧ (∀ i, 0 < i →
        ((prof_handle_sample sN bt2).slots i).used = (sN.slots i).used
        ∧ ((prof_handle_sample sN bt2).slots i).count = (sN.slots i).count
        ∧ ((prof_handle_sample sN bt2).slots i).backtrace = (sN.slots i).backtrace) := by
  rw [handle_create_descr sN bt2 E 0 hd0 hens]
  have hF0 : ({ updSlot E 0 (fun q => { q with count := q.count + 1 }) with
      total := E.total + 1 } : ProfState).slots 0
      = (fun q => { q with count := q.count + 1 }) (E.slots 0) := by
    rw [show ({ updSlot E 0 (fun q => { q with count := q.count + 1 }) with
        total := E.total + 1 } : ProfState).slots 0
      = (updSlot E 0 (fun q => { q with count := q.count + 1 })).slots 0 from rfl]
    exact updSlot_slots_same E 0 _
  have hFo : ∀ j, j ≠ 0 →
      ({ updSlot E 0 (fun q => { q with count := q.count + 1 }) with
        total := E.total + 1 } : ProfState).slots j = E.slots j := by
    intro j hj
    rw [show ({ updSlot E 0 (fun q => { q with count := q.count + 1 }) with
        total := E.total + 1 } : ProfState).slots j
      = (updSlot E 0 (fun q => { q with count := q.count + 1 })).slots j from rfl]
    exact updSlot_slots_other E 0 _ j hj
  refine ⟨?_, ?_, ?_, ?_, ?_, ?_⟩
  · show E.others = sN.others + (sN.slots 0).count
    rw [hothE, moth]
  · rw [hF0]
    show (E.slots 0).used = true
    rw [hu 0, mu0]
  · rw [hF0]
    show (E.slots 0).count + 1 = 1
    rw [hc 0, mc0]
  · rw [hF0]
    show (E.slots 0).backtrace = copy_backtrace d bt2
    rw [hbt 0, mb0]
  · show E.total + 1 = sN.total + 1
    rw [htotE, mtot]
  · intro i hi
    have hne : i ≠ 0 := by omega
    rw [hFo i hne]
    exact ⟨(hu i).trans (mrest i hne).1, (hc i).trans (mrest i hne).2.1,
           (hbt i).trans (mrest i hne).2.2⟩

/-- C6: from an empty pool of capacity N, sampling N pairwise-distinct
backtraces fills the pool with zero evictions (others stays 0, the free
list is exhausted, every slot is used with count 1, total = N); sampling
one further distinct backtrace runs exactly one eviction: the victim is
slot 0, the first slot in scan order among the (all-equal) minimal counts,
others_count grows by exactly the victim's count, the new backtrace gets a
fresh slot with count 1, and no other slot's count, used bit or backtrace
changes. -/
theorem C6_fill_then_one_eviction (d N : Nat) (bts : List (List LObj))
    (bt2 : List LObj)
    (hN : 0 < N) (hlen : bts.length = N)
    (hnn : ∀ j, j < N → ¬(btGet (bts.getD j []) 0 = LObj.nil))
    (hpair : ∀ j k2, j < k2 → k2 < N →
      prof_backtrace_equal d (bts.getD k2 []) (bts.getD j []) = false)
    (hnn2 : ¬(btGet bt2 0 = LObj.nil))
    (hd2 : ∀ j, j < N → prof_backtrace_equal d bt2 (bts.getD j []) = false) :
    (fillState d N bts).others = 0
    ∧ (fillState d N bts).free_list = none
    ∧ (fillState d N bts).total = N
    ∧ (∀ i, i < N → ((fillState d N bts).slots i).used = true
        ∧ ((fillState d N bts).slots i).count = 1)
    ∧ prof_evict_min_idx (fillState d N bts) = some 0
    ∧ (∀ i, i < N → ((fillState d N bts).slots 0).count
        ≤ ((fillState d N bts).slots i).count)
    ∧ (prof_handle_sample (fillState d N bts) bt2).others
        = (fillState d N bts).others + ((fillState d N bts).slots 0).count
    ∧ ((prof_handle_sample (fillState d N bts) bt2).slots 0).used = true
    ∧ ((prof_handle_sample (fillState d N bts) bt2).slots 0).count = 1
    ∧ ((prof_handle_sample (fillState d N bts) bt2).slots 0).backtrace
        = copy_backtrace d bt2
    ∧ (prof_handle_sample (fillState d N bts) bt2).total = N + 1
    ∧ (∀ i, 0 < i → i < N →
        ((prof_handle_sample (fillState d N bts) bt2).slots i).used
          = ((fillState d N bts).slots i).used
        ∧ ((prof_handle_sample (fillState d N bts) bt2).slots i).count
          = ((fillState d N bts).slots i).count
        ∧ ((prof_handle_sample (fillState d N bts) bt2).slots i).backtrace
          = ((fillState d N bts).slots i).backtrace) := by
  unfold fillState
  have hfillN := fillInv_all d N bts hlen hnn hpair N (le_refl N)
  have htakeN : List.take N bts = bts := by
    rw [← hlen]
    exact List.take_length bts
  rw [htakeN] at hfillN
  obtain ⟨hdep, hsz, hoth, htot, hfl, htail, hslots, hchain⟩ := hfillN
  have hfree : (sampleList (prof_init d N) bts).free_list = none := by
    rw [hfl, if_neg (lt_irrefl N)]
  have hmin : ∀ i, i < (sampleList (prof_init d N) bts).heap_size →
      ¬(((sampleList (prof_init d N) bts).slots i).count
        < ((sampleList (prof_init d N) bts).slots 0).count) := by
    intro i hi
    rw [(hslots i (by omega)).2.1, (hslots 0 hN).2.1]
    omega
  have hevidx : prof_evict_min_idx (sampleList (prof_init d N) bts) = some 0 :=
    prof_evict_scan_const _ hmin _ (by omega) (le_refl _)
  have hminle : ∀ i, i < N → ((sampleList (prof_init d N) bts).slots 0).count
      ≤ ((sampleList (prof_init d N) bts).slots i).count := by
    intro i hi
    rw [(hslots i hi).2.1, (hslots 0 hN).2.1]
  have hLlen : (chainOf d bts
      (prof_backtrace_index (sampleList (prof_init d N) bts).depth bt2) N).length
      < (sampleList (prof_init d N) bts).heap_size + 1 := by
    have h1 : (chainOf d bts
        (prof_backtrace_index (sampleList (prof_init d N) bts).depth bt2) N).length
        ≤ (List.range N).length := List.length_filter_le _ _
    rw [List.length_range] at h1
    omega
  have hLne : ∀ j ∈ chainOf d bts
      (prof_backtrace_index (sampleList (prof_init d N) bts).depth bt2) N,
      prof_backtrace_equal (sampleList (prof_init d N) bts).depth bt2
        ((sampleList (prof_init d N) bts).slots j).backtrace = false := by
    intro j hj
    obtain ⟨hjlt, _⟩ := (chainOf_mem d bts _ N j).mp hj
    rw [(hslots j hjlt).2.2, hdep, prof_backtrace_equal_copy]
    exact hd2 j hjlt
  have hfind := chain_find_miss (sampleList (prof_init d N) bts) bt2
    (chainOf d bts
      (prof_backtrace_index (sampleList (prof_init d N) bts).depth bt2) N)
    ((sampleList (prof_init d N) bts).heap_size + 1)
    ((sampleList (prof_init d N) bts).table
      (prof_backtrace_index (sampleList (prof_init d N) bts).depth bt2)) none
    ((sampleList (prof_init d N) bts).table
      (prof_backtrace_index (sampleList (prof_init d N) bts).depth bt2))
    (hchain _) hLlen hLne
  obtain ⟨me1, me2, me3, me4, me5, me6, me7, me8⟩ :=
    make_evict_descr (sampleList (prof_init d N) bts) bt2 0 hfree hevidx
  rw [hdep] at me7
  cases hmk : prof_make_slot (sampleList (prof_init d N) bts) bt2 with
  | mk S1 r =>
  rw [hmk] at me1 me2 me3 me4 me5 me6 me7 me8
  dsimp only at me1 me2 me3 me4 me5 me6 me7 me8
  subst me1
  have mu0 : (S1.slots 0).used = true := by rw [me7]
  have mc0 : (S1.slots 0).count = 0 := by rw [me7]
  have mb0 : (S1.slots 0).backtrace = copy_backtrace d bt2 := by rw [me7]
  refine ⟨hoth, hfree, htot,
    fun i hi => ⟨(hslots i hi).1, (hslots i hi).2.1⟩, hevidx, hminle, ?_⟩
  cases hlast : (chainOf d bts
      (prof_backtrace_index (sampleList (prof_init d N) bts).depth bt2) N).getLast? with
  | none =>
      have hLnil := getLast_eq_none_nil _ hlast
      have htb : (sampleList (prof_init d N) bts).table
          (prof_backtrace_index (sampleList (prof_init d N) bts).depth bt2) = none := by
        have hx := hchain
          (prof_backtrace_index (sampleList (prof_init d N) bts).depth bt2)
        rw [hLnil] at hx
        exact hx
      have hfind2 : prof_chain_find (sampleList (prof_init d N) bts) bt2
          ((sampleList (prof_init d N) bts).heap_size + 1)
          ((sampleList (prof_init d N) bts).table
            (prof_backtrace_index (sampleList (prof_init d N) bts).depth bt2))
          ((sampleList (prof_init d N) bts).table
            (prof_backtrace_index (sampleList (prof_init d N) bts).depth bt2))
          = (none, none) := by
        rw [hfind, hLnil, lastOr_nil, htb]
      have hens : prof_ensure_slot (sampleList (prof_init d N) bts) bt2
          = (updTable S1
              (prof_backtrace_index (sampleList (prof_init d N) bts).depth bt2)
              (some 0), some 0) := by
        unfold prof_ensure_slot
        rw [hfind2, hmk]
      have has := c6_final_assemble (sampleList (prof_init d N) bts) S1 _ bt2 d hens
        hnn2 (fun j => rfl) (fun j => rfl) (fun j => rfl) rfl rfl
        me4 me5 mu0 mc0 mb0 me8
      exact ⟨has.1, has.2.1, has.2.2.1, has.2.2.2.1,
        (has.2.2.2.2.1).trans (by rw [htot]),
        fun i h1 _ => has.2.2.2.2.2 i h1⟩
  | some p =>
      have hfind2 : prof_chain_find (sampleList (prof_init d N) bts) bt2
          ((sampleList (prof_init d N) bts).heap_size + 1)
          ((sampleList (prof_init d N) bts).table
            (prof_backtrace_index (sampleList (prof_init d N) bts).depth bt2))
          ((sampleList (prof_init d N) bts).table
            (prof_backtrace_index (sampleList (prof_init d N) bts).depth bt2))
          = (none, some p) := by
        rw [hfind, lastOr_eq_some p _ _ hlast]
      have hens : prof_ensure_slot (sampleList (prof_init d N) bts) bt2
          = (updSlot (updSlot S1 0 (fun q => { q with prev := some p })) p
              (fun q => { q with next := some 0 }), some 0) := by
        unfold prof_ensure_slot
        rw [hfind2, hmk]
      have has := c6_final_assemble (sampleList (prof_init d N) bts) S1 _ bt2 d hens
        hnn2
        (fun j => (updSlot_preserves_used _ p (fun q => { q with next := some 0 })
            (fun q => rfl) j).trans
          (updSlot_preserves_used S1 0 (fun q => { q with prev := some p })
            (fun q => rfl) j))
        (fun j => (updSlot_preserves_count _ p (fun q => { q with next := some 0 })
            (fun q => rfl) j).trans
          (updSlot_preserves_count S1 0 (fun q => { q with prev := some p })
            (fun q => rfl) j))
        (fun j => (updSlot_preserves_backtrace _ p (fun q => { q with next := some 0 })
            (fun q => rfl) j).trans
          (updSlot_preserves_backtrace S1 0 (fun q => { q with prev := some p })
            (fun q => rfl) j))
        rfl rfl me4 me5 mu0 mc0 mb0 me8
      exact ⟨has.1, has.2.1, has.2.2.1, has.2.2.2.1,
        (has.2.2.2.2.1).trans (by rw [htot]),
        fun i h1 _ => has.2.2.2.2.2 i h1⟩

/-- Witness for C6_fill_then_one_eviction at capacity 1, depth 1, with
backtraces [sym 0] and then [sym 1]. -/
theorem C6_fill_then_one_eviction_witness :
    (fillState 1 1 [[LObj.sym 0]]).total = 1
    ∧ prof_evict_min_idx (fillState 1 1 [[LObj.sym 0]]) = some 0
    ∧ ((prof_handle_sample (fillState 1 1 [[LObj.sym 0]]) [LObj.sym 1]).slots 0).count = 1
    ∧ (prof_handle_sample (fillState 1 1 [[LObj.sym 0]]) [LObj.sym 1]).others
        = (fillState 1 1 [[LObj.sym 0]]).others
          + ((fillState 1 1 [[LObj.sym 0]]).slots 0).count := by
  have h := C6_fill_then_one_eviction 1 1 [[LObj.sym 0]] [LObj.sym 1]
    (by decide) (by decide) (by decide)
    (fun j k2 h1 h2 => by omega)
    (by decide) (by decide)
  exact ⟨h.2.2.1, h.2.2.2.2.1, h.2.2.2.2.2.2.2.2.1, h.2.2.2.2.2.2.1⟩
